import Mathlib

/-!
# vkaobench: a verification development

Shallow embedding of `vkaobench.cpp` (a one-shot Vulkan compute dispatch that
renders an ambient-occlusion image and writes it as a PPM file) and theorems
about it.
-/

namespace VkAoBench

/-! ## Queue families and memory types -/

/-- Value of `VK_QUEUE_COMPUTE_BIT` in the Vulkan headers (`0x00000002`). -/
def VK_QUEUE_COMPUTE_BIT : Nat := 2

/-- Value of `VK_MEMORY_PROPERTY_HOST_VISIBLE_BIT` (`0x00000002`). -/
def VK_MEMORY_PROPERTY_HOST_VISIBLE_BIT : Nat := 2

/-- Value of `VK_MEMORY_PROPERTY_HOST_COHERENT_BIT` (`0x00000004`). -/
def VK_MEMORY_PROPERTY_HOST_COHERENT_BIT : Nat := 4

/-- The two fields of `VkQueueFamilyProperties` that `findQueueFamily` reads
(both `uint32_t`). -/
structure VkQueueFamilyProperties where
  queueFlags : Nat
  queueCount : Nat
deriving DecidableEq, Repr

/-- The condition of the `if` in the loop of `findQueueFamily`:
`queueCount > 0 && queueFlags & VK_QUEUE_COMPUTE_BIT`. -/
def queueFamilyTest (p : VkQueueFamilyProperties) : Bool :=
  decide (p.queueCount > 0) && decide (p.queueFlags &&& VK_QUEUE_COMPUTE_BIT ≠ 0)

/-- The loop `for (uint32_t i = 0; i < numQueueFamilyProperties; ++i)` of
`findQueueFamily`, started at index `i` on the families not yet visited.
It returns the index on the first hit and throws when the families are
exhausted. The counter is a `uint32_t` bounded by the `uint32_t` family
count, so it never wraps. -/
def findQueueFamilyLoop : List VkQueueFamilyProperties → Nat → Except String Nat
  | [], _ => Except.error "queue family with VK_QUEUE_COMPUTE_BIT not found"
  | p :: ps, i => if queueFamilyTest p then Except.ok i else findQueueFamilyLoop ps (i + 1)

/-- The fields of `VkPhysicalDeviceMemoryProperties` read by
`findMemoryTypeIndex`: the count and the `propertyFlags` of each entry of the
`memoryTypes` array. -/
structure VkPhysicalDeviceMemoryProperties where
  memoryTypeCount : Nat
  memoryTypes : List Nat
deriving DecidableEq, Repr

/-- The test `(1 << i) & memoryTypeBits`: `1 << i` is a 32-bit shift and the
conjunction is taken on 32-bit unsigned values. -/
def memoryTypeBitTest (i memoryTypeBits : Nat) : Bool :=
  decide (((1 <<< i) % 2 ^ 32) &&& memoryTypeBits ≠ 0)

/-- The inner test `flags & HOST_VISIBLE && flags & HOST_COHERENT`. -/
def memoryFlagsTest (flags : Nat) : Bool :=
  decide (flags &&& VK_MEMORY_PROPERTY_HOST_VISIBLE_BIT ≠ 0) &&
    decide (flags &&& VK_MEMORY_PROPERTY_HOST_COHERENT_BIT ≠ 0)

/-- The combined test of one iteration of `findMemoryTypeIndex`. -/
def memoryTypeTest (props : VkPhysicalDeviceMemoryProperties) (bits i : Nat) : Bool :=
  memoryTypeBitTest i bits && memoryFlagsTest (props.memoryTypes.getD i 0)

/-- The loop of `findMemoryTypeIndex` with `fuel` iterations left, at index
`i`; entry `i` of the `memoryTypes` array is read only when bit `i` is
requested. -/
def findMemoryTypeIndexLoop (props : VkPhysicalDeviceMemoryProperties) (memoryTypeBits : Nat) :
    Nat → Nat → Except String Nat
  | 0, _ => Except.error "suitable memory type not found"
  | fuel + 1, i =>
    if memoryTypeBitTest i memoryTypeBits && memoryFlagsTest (props.memoryTypes.getD i 0) then
      Except.ok i
    else findMemoryTypeIndexLoop props memoryTypeBits fuel (i + 1)

/-- `AOBench::findMemoryTypeIndex`: scan indices `0 .. memoryTypeCount - 1`. -/
def findMemoryTypeIndex (props : VkPhysicalDeviceMemoryProperties) (memoryTypeBits : Nat) :
    Except String Nat :=
  findMemoryTypeIndexLoop props memoryTypeBits props.memoryTypeCount 0

/-! ## Single-precision arithmetic

The program computes with `float` in two places: the dispatch grid
(`std::ceil(static_cast<float>(WIDTH) / WORKGROUP_SIZE)`) and the pixel
conversion (`static_cast<char>(255 * c)`). The values involved are finite and
non-negative, and they are modelled exactly. Every finite binary32 value is a
whole multiple of the least subnormal `2 ^ -149` with at most 24 significant
bits; a value is kept as a significand `m` and a shift `s`, standing for
`m * 2 ^ s` units of `2 ^ -149`. Every operation is the exact operation
followed by IEEE-754 round-to-nearest-even. Overflow to infinity is not
modelled; no operation on the ranges considered below comes near it. -/

/-- A finite non-negative floating-point value, `m * 2 ^ s * 2 ^ -149`. -/
structure F32 where
  m : Nat
  s : Nat
deriving DecidableEq, Repr

/-- The value counted in units of `2 ^ -149`. -/
def F32.units (x : F32) : Nat := x.m * 2 ^ x.s

/-- The number of units in `1.0`. -/
def F32.one : Nat := 2 ^ 149

/-- Number of binary digits of `n`, by halving at most `fuel` times. -/
def bitLenAux : Nat → Nat → Nat
  | 0, _ => 0
  | fuel + 1, n => if n = 0 then 0 else bitLenAux fuel (n / 2) + 1

/-- Number of binary digits of `n` (`0` for `0`). -/
def bitLen (n : Nat) : Nat := bitLenAux n n

/-- The integer nearest to `num / den`, ties to the even one. -/
def roundNearestEven (num den : Nat) : Nat :=
  let qt := num / den
  let r := num % den
  if 2 * r < den then qt
  else if den < 2 * r then qt + 1
  else if qt % 2 = 0 then qt else qt + 1

/-- The binary32 value nearest to `p / q` (ties to even). In units of
`2 ^ -149` the quotient is `p * 2 ^ 149 / q`; of its integer part the 24
leading bits are kept, so the `s` bits below them are rounded away (none when
the integer part has at most 24 bits, the subnormal and lowest normal
range). The significand may come out as `2 ^ 24`, the same value as `2 ^ 23`
with the next shift. -/
def F32.round (p q : Nat) : F32 :=
  let s := bitLen (p * 2 ^ 149 / q) - 24
  ⟨roundNearestEven (p * 2 ^ 149) (q * 2 ^ s), s⟩

/-- Conversion `static_cast<float>(n)` of an unsigned integer. -/
def F32.ofNat (n : Nat) : F32 := F32.round n 1

/-- Single-precision product. -/
def F32.mul (a b : F32) : F32 := F32.round (a.units * b.units) (F32.one * F32.one)

/-- Single-precision quotient (for a non-zero divisor). -/
def F32.div (a b : F32) : F32 := F32.round (a.units * F32.one) (F32.one * b.units)

/-- The function `std::ceil`: the least integer not below the value, which is
again a float. -/
def F32.ceil (a : F32) : F32 := ⟨(a.units + F32.one - 1) / F32.one, 149⟩

/-- Conversion `static_cast<uint32_t>(x)`: truncation, kept to 32 bits. -/
def F32.toUInt32 (a : F32) : Nat := (a.units / F32.one) % 2 ^ 32

/-- Conversion `static_cast<char>(x)` as the byte stored in the output buffer:
truncation towards zero, of which the low eight bits are kept. -/
def F32.toChar (a : F32) : Nat := (a.units / F32.one) % 256

/-! ## Constants and pixels -/

/-- A pixel of the mapped buffer, `struct vec4`. -/
structure vec4 where
  r : F32
  g : F32
  b : F32
  a : F32
deriving DecidableEq, Repr

/-- Tile edge, `constexpr size_t WORKGROUP_SIZE = 16`. -/
def WORKGROUP_SIZE : Nat := 16

/-- Image width, `constexpr size_t WIDTH = 256`. -/
def WIDTH : Nat := 256

/-- Image height, `constexpr size_t HEIGHT = 256`. -/
def HEIGHT : Nat := 256

/-- The expression `static_cast<uint32_t>(std::ceil(static_cast<float>(n) / t))`
of `createCommandBuffer`, with the extent `n` and the tile size `t` (both
`size_t`) as parameters. -/
def dispatchGroups (n t : Nat) : Nat :=
  F32.toUInt32 (F32.ceil (F32.div (F32.ofNat n) (F32.ofNat t)))

/-- The expression `static_cast<char>(255 * c)` of `saveImage`: the integer
`255` is converted to `float`, the product is a `float`. -/
def pixelByte (c : F32) : Nat := F32.toChar (F32.mul (F32.ofNat 255) c)

/-! ## The object, its environment and the calls it makes -/

/-- The calls the program makes to the Vulkan API and to the file system,
recorded in the order they are made. -/
inductive Call where
  | vkCreateInstance
  | vkEnumeratePhysicalDevices
  | vkGetPhysicalDeviceQueueFamilyProperties
  | vkCreateDevice
  | vkGetDeviceQueue
  | vkCreateBuffer
  | vkGetBufferMemoryRequirements
  | vkGetPhysicalDeviceMemoryProperties
  | vkAllocateMemory (memoryTypeIndex : Nat)
  | vkBindBufferMemory
  | vkCreateDescriptorSetLayout
  | vkCreateDescriptorPool
  | vkAllocateDescriptorSets
  | vkUpdateDescriptorSets
  | openShaderFile
  | vkCreateShaderModule
  | vkCreatePipelineLayout
  | vkCreateComputePipelines
  | vkCreateCommandPool
  | vkAllocateCommandBuffers
  | vkBeginCommandBuffer
  | vkCmdBindPipeline
  | vkCmdBindDescriptorSets
  | vkCmdDispatch (x y z : Nat)
  | vkEndCommandBuffer
  | vkCreateFence
  | vkQueueSubmit
  | vkWaitForFences
  | vkMapMemory
  | vkUnmapMemory
  | writeOutputFile
  | vkDeviceWaitIdle
  | vkDestroyFence
  | vkDestroyCommandPool
  | vkDestroyPipeline
  | vkDestroyPipelineLayout
  | vkDestroyShaderModule
  | vkDestroyDescriptorSetLayout
  | vkDestroyDescriptorPool
  | vkFreeMemory
  | vkDestroyBuffer
  | vkDestroyDevice
  | vkDestroyInstance
deriving DecidableEq, Repr

/-- What the driver and the file system answer to each call of one run. A
creation call answers `some h` (the result is `VK_SUCCESS` and the handle `h`
is written) or `none` (any other result, nothing written); a call that only
returns a result answers `true` for `VK_SUCCESS`. -/
structure Env where
  vkCreateInstance : Option Nat
  /-- Result of the first, counting call of `vkEnumeratePhysicalDevices`. -/
  vkEnumeratePhysicalDevicesCount : Bool
  /-- The enumerated accelerators; the reported count is the length. -/
  physicalDevices : List Nat
  /-- Result of the second call of `vkEnumeratePhysicalDevices`. -/
  vkEnumeratePhysicalDevicesList : Bool
  /-- Queue families reported for the selected accelerator. -/
  queueFamilyProperties : List VkQueueFamilyProperties
  vkCreateDevice : Option Nat
  vkGetDeviceQueue : Nat
  vkCreateBuffer : Option Nat
  /-- Field `memoryTypeBits` of the buffer's memory requirements. -/
  memoryTypeBits : Nat
  memoryProperties : VkPhysicalDeviceMemoryProperties
  vkAllocateMemory : Option Nat
  vkBindBufferMemory : Bool
  vkCreateDescriptorSetLayout : Option Nat
  vkCreateDescriptorPool : Option Nat
  vkAllocateDescriptorSets : Option Nat
  /-- Contents of `comp.spv`, `none` when the file cannot be opened. -/
  shaderFile : Option (List Nat)
  vkCreateShaderModule : Option Nat
  vkCreatePipelineLayout : Option Nat
  vkCreateComputePipelines : Option Nat
  vkCreateCommandPool : Option Nat
  vkAllocateCommandBuffers : Option Nat
  vkBeginCommandBuffer : Bool
  vkEndCommandBuffer : Bool
  vkCreateFence : Option Nat
  vkQueueSubmit : Bool
  vkWaitForFences : Bool
  /-- The mapped buffer as an array of pixels, `none` when mapping fails. -/
  vkMapMemory : Option (Nat → vec4)

/-- The members of `class AOBench`; a handle member is `none` for
`VK_NULL_HANDLE`, a member the constructor leaves uninitialised is `none`
until it is assigned. Two more fields record the effects on the outside: the
calls made so far and the bytes written to `ao.ppm`. -/
structure AOBench where
  instance_ : Option Nat
  physicalDevice : Option Nat
  queueFamilyIndex : Option Nat
  device : Option Nat
  queue : Option Nat
  buffer : Option Nat
  memory : Option Nat
  descriptorSetLayout : Option Nat
  descriptorPool : Option Nat
  descriptorSet : Option Nat
  shaderModule : Option Nat
  pipelineLayout : Option Nat
  pipeline : Option Nat
  commandPool : Option Nat
  commandBuffer : Option Nat
  fence : Option Nat
  trace : List Call
  aoPpm : Option (List Nat)

/-- The constructor `AOBench()`: every handle it lists is `VK_NULL_HANDLE`. -/
def AOBench.new : AOBench :=
  { instance_ := none, physicalDevice := none, queueFamilyIndex := none, device := none,
    queue := none, buffer := none, memory := none, descriptorSetLayout := none,
    descriptorPool := none, descriptorSet := none, shaderModule := none,
    pipelineLayout := none, pipeline := none, commandPool := none, commandBuffer := none,
    fence := none, trace := [], aoPpm := none }

/-- Record one call. -/
def AOBench.call (s : AOBench) (c : Call) : AOBench := { s with trace := s.trace ++ [c] }

/-- How a member function ends: the object as it is left, and the message of
the `std::exception` thrown, if one is. -/
structure Outcome where
  state : AOBench
  thrown : Option String

/-! ## The stages of `run` -/

/-- `AOBench::createInstance`. -/
def createInstance (env : Env) (s : AOBench) : Outcome :=
  let s := s.call Call.vkCreateInstance
  match env.vkCreateInstance with
  | none => ⟨s, some "failed: vkCreateInstance(&createInfo, nullptr, &instance)"⟩
  | some h => ⟨{ s with instance_ := some h }, none⟩

/-- `AOBench::acquirePhysicalDevice`: count the accelerators, throw when there
is none, fetch them and keep the first. -/
def acquirePhysicalDevice (env : Env) (s : AOBench) : Outcome :=
  let s := s.call Call.vkEnumeratePhysicalDevices
  if !env.vkEnumeratePhysicalDevicesCount then
    ⟨s, some "failed: vkEnumeratePhysicalDevices(instance, &numPhysicalDevices, nullptr)"⟩
  else
    match env.physicalDevices with
    | [] => ⟨s, some "physical device not found"⟩
    | d :: _ =>
      let s := s.call Call.vkEnumeratePhysicalDevices
      if !env.vkEnumeratePhysicalDevicesList then
        ⟨s, some
          "failed: vkEnumeratePhysicalDevices(instance, &numPhysicalDevices, physicalDevices.get())"⟩
      else ⟨{ s with physicalDevice := some d }, none⟩

/-- `AOBench::findQueueFamily`: query the families (count, then contents) and
scan them; `queueFamilyIndex` is assigned only on a hit. -/
def findQueueFamily (env : Env) (s : AOBench) : Outcome :=
  let s := s.call Call.vkGetPhysicalDeviceQueueFamilyProperties
  let s := s.call Call.vkGetPhysicalDeviceQueueFamilyProperties
  match findQueueFamilyLoop env.queueFamilyProperties 0 with
  | Except.ok i => ⟨{ s with queueFamilyIndex := some i }, none⟩
  | Except.error msg => ⟨s, some msg⟩

/-- `AOBench::createDevice`. -/
def createDevice (env : Env) (s : AOBench) : Outcome :=
  let s := s.call Call.vkCreateDevice
  match env.vkCreateDevice with
  | none =>
    ⟨s, some "failed: vkCreateDevice(physicalDevice, &deviceCreateInfo, nullptr, &device)"⟩
  | some h =>
    let s := { s with device := some h }
    let s := s.call Call.vkGetDeviceQueue
    ⟨{ s with queue := some env.vkGetDeviceQueue }, none⟩

/-- `AOBench::createBuffer`: create the buffer, choose the memory type,
allocate the memory and bind it. -/
def createBuffer (env : Env) (s : AOBench) : Outcome :=
  let s := s.call Call.vkCreateBuffer
  match env.vkCreateBuffer with
  | none => ⟨s, some "failed: vkCreateBuffer(device, &createInfo, nullptr, &buffer)"⟩
  | some h =>
    let s := { s with buffer := some h }
    let s := s.call Call.vkGetBufferMemoryRequirements
    let s := s.call Call.vkGetPhysicalDeviceMemoryProperties
    match findMemoryTypeIndex env.memoryProperties env.memoryTypeBits with
    | Except.error msg => ⟨s, some msg⟩
    | Except.ok memoryTypeIndex =>
      let s := s.call (Call.vkAllocateMemory memoryTypeIndex)
      match env.vkAllocateMemory with
      | none =>
        ⟨s, some "failed: vkAllocateMemory(device, &memoryAllocateInfo, nullptr, &memory)"⟩
      | some hm =>
        let s := { s with memory := some hm }
        let s := s.call Call.vkBindBufferMemory
        if !env.vkBindBufferMemory then
          ⟨s, some "failed: vkBindBufferMemory(device, buffer, memory, 0)"⟩
        else ⟨s, none⟩

/-- `AOBench::createDescriptorSet`: layout, pool, set, then the update. -/
def createDescriptorSet (env : Env) (s : AOBench) : Outcome :=
  let s := s.call Call.vkCreateDescriptorSetLayout
  match env.vkCreateDescriptorSetLayout with
  | none => ⟨s, some
      "failed: vkCreateDescriptorSetLayout(device, &descSetLayoutCreateInfo, nullptr, &descriptorSetLayout)"⟩
  | some hl =>
    let s := { s with descriptorSetLayout := some hl }
    let s := s.call Call.vkCreateDescriptorPool
    match env.vkCreateDescriptorPool with
    | none => ⟨s, some
        "failed: vkCreateDescriptorPool(device, &descPoolCreateInfo, nullptr, &descriptorPool)"⟩
    | some hp =>
      let s := { s with descriptorPool := some hp }
      let s := s.call Call.vkAllocateDescriptorSets
      match env.vkAllocateDescriptorSets with
      | none => ⟨s, some
          "failed: vkAllocateDescriptorSets(device, &descSetAllocateInfo, &descriptorSet)"⟩
      | some hs =>
        let s := { s with descriptorSet := some hs }
        ⟨s.call Call.vkUpdateDescriptorSets, none⟩

/-- `AOBench::createShaderModule`: open `comp.spv`, throw when it cannot be
opened, read it and wrap it. -/
def createShaderModule (env : Env) (s : AOBench) : Outcome :=
  let s := s.call Call.openShaderFile
  match env.shaderFile with
  | none => ⟨s, some "could not open shader binary"⟩
  | some _ =>
    let s := s.call Call.vkCreateShaderModule
    match env.vkCreateShaderModule with
    | none => ⟨s, some
        "failed: vkCreateShaderModule(device, &createInfo, nullptr, &shaderModule)"⟩
    | some h => ⟨{ s with shaderModule := some h }, none⟩

/-- `AOBench::createPipeline`: the pipeline layout, then the compute pipeline. -/
def createPipeline (env : Env) (s : AOBench) : Outcome :=
  let s := s.call Call.vkCreatePipelineLayout
  match env.vkCreatePipelineLayout with
  | none => ⟨s, some
      "failed: vkCreatePipelineLayout(device, &layoutCreateInfo, nullptr, &pipelineLayout)"⟩
  | some hl =>
    let s := { s with pipelineLayout := some hl }
    let s := s.call Call.vkCreateComputePipelines
    match env.vkCreateComputePipelines with
    | none => ⟨s, some
        "failed: vkCreateComputePipelines(device, VK_NULL_HANDLE, 1, &pipelineCreateInfo, nullptr, &pipeline)"⟩
    | some h => ⟨{ s with pipeline := some h }, none⟩

/-- `AOBench::createCommandBuffer`: pool, command buffer, and the recording of
bind, bind, dispatch. -/
def createCommandBuffer (env : Env) (s : AOBench) : Outcome :=
  let s := s.call Call.vkCreateCommandPool
  match env.vkCreateCommandPool with
  | none => ⟨s, some
      "failed: vkCreateCommandPool(device, &cmdPoolCreateInfo, nullptr, &commandPool)"⟩
  | some hp =>
    let s := { s with commandPool := some hp }
    let s := s.call Call.vkAllocateCommandBuffers
    match env.vkAllocateCommandBuffers with
    | none => ⟨s, some
        "failed: vkAllocateCommandBuffers(device, &cmdBufferAllocateInfo, &commandBuffer)"⟩
    | some hb =>
      let s := { s with commandBuffer := some hb }
      let s := s.call Call.vkBeginCommandBuffer
      if !env.vkBeginCommandBuffer then
        ⟨s, some "failed: vkBeginCommandBuffer(commandBuffer, &cmdBufferBeginInfo)"⟩
      else
        let s := s.call Call.vkCmdBindPipeline
        let s := s.call Call.vkCmdBindDescriptorSets
        let s := s.call (Call.vkCmdDispatch (dispatchGroups WIDTH WORKGROUP_SIZE)
          (dispatchGroups HEIGHT WORKGROUP_SIZE) 1)
        let s := s.call Call.vkEndCommandBuffer
        if !env.vkEndCommandBuffer then
          ⟨s, some "failed: vkEndCommandBuffer(commandBuffer)"⟩
        else ⟨s, none⟩

/-- `AOBench::submitCommandBuffer`: create the fence and submit. -/
def submitCommandBuffer (env : Env) (s : AOBench) : Outcome :=
  let s := s.call Call.vkCreateFence
  match env.vkCreateFence with
  | none => ⟨s, some "failed: vkCreateFence(device, &fenceCreateInfo, nullptr, &fence)"⟩
  | some h =>
    let s := { s with fence := some h }
    let s := s.call Call.vkQueueSubmit
    if !env.vkQueueSubmit then
      ⟨s, some "failed: vkQueueSubmit(queue, 1, &submitInfo, fence)"⟩
    else ⟨s, none⟩

/-- The bytes of an ASCII string. -/
def asciiBytes (t : String) : List Nat := t.toList.map Char.toNat

/-- What the three insertions `"P6" << endl << WIDTH << " " << HEIGHT << endl
<< "255" << endl` put into the binary stream; `endl` is one byte `10`. -/
def ppmHeader : List Nat :=
  asciiBytes "P6" ++ [10] ++ asciiBytes (toString WIDTH) ++ asciiBytes " " ++
    asciiBytes (toString HEIGHT) ++ [10] ++ asciiBytes "255" ++ [10]

/-- The conversion loop of `saveImage`, with `fuel` iterations left at index
`i`: three stores into the byte buffer for each pixel. -/
def saveImageLoop (pixels : Nat → vec4) : Nat → Nat → List Nat → List Nat
  | 0, _, buffer => buffer
  | fuel + 1, i, buffer =>
    let buffer := buffer.set (3 * i + 0) (pixelByte (pixels i).r)
    let buffer := buffer.set (3 * i + 1) (pixelByte (pixels i).g)
    let buffer := buffer.set (3 * i + 2) (pixelByte (pixels i).b)
    saveImageLoop pixels fuel (i + 1) buffer

/-- The byte buffer of `saveImage` after the loop: `3 * WIDTH * HEIGHT` bytes,
zero-initialised by `make_unique`, filled from the `WIDTH * HEIGHT` pixels. -/
def imageBytes (pixels : Nat → vec4) : List Nat :=
  saveImageLoop pixels (WIDTH * HEIGHT) 0 (List.replicate (3 * WIDTH * HEIGHT) 0)

/-- The body the image format asks for: for `count` pixels from index `i` on,
in index order, the three converted colour components of each, and nothing
of its alpha. -/
def rgbBytes (pixels : Nat → vec4) : Nat → Nat → List Nat
  | 0, _ => []
  | count + 1, i =>
    [pixelByte (pixels i).r, pixelByte (pixels i).g, pixelByte (pixels i).b] ++
      rgbBytes pixels count (i + 1)

/-- The contents of `ao.ppm` that `saveImage` writes for a mapped buffer. -/
def ppmFile (pixels : Nat → vec4) : List Nat := ppmHeader ++ imageBytes pixels

/-- `AOBench::saveImage`: wait for the fence, map the memory, convert, unmap
and write the file. The output stream is taken to open. -/
def saveImage (env : Env) (s : AOBench) : Outcome :=
  let s := s.call Call.vkWaitForFences
  if !env.vkWaitForFences then
    ⟨s, some
      "failed: vkWaitForFences(device, 1, &fence, VK_TRUE, std::numeric_limits<uint64_t>::max())"⟩
  else
    let s := s.call Call.vkMapMemory
    match env.vkMapMemory with
    | none => ⟨s, some
        "failed: vkMapMemory(device, memory, 0, BUFFER_SIZE, 0, reinterpret_cast<void**>(&pixels))"⟩
    | some pixels =>
      let s := s.call Call.vkUnmapMemory
      let s := s.call Call.writeOutputFile
      ⟨{ s with aoPpm := some (ppmFile pixels) }, none⟩

/-- Run member functions in order; the first one that throws ends the
sequence and its exception propagates. -/
def runStages : List (AOBench → Outcome) → AOBench → Outcome
  | [], s => ⟨s, none⟩
  | f :: fs, s =>
    match (f s).thrown with
    | none => runStages fs (f s).state
    | some msg => ⟨(f s).state, some msg⟩

/-- The eleven calls in the body of `AOBench::run`, in order. -/
def stages (env : Env) : List (AOBench → Outcome) :=
  [createInstance env, acquirePhysicalDevice env, findQueueFamily env, createDevice env,
    createBuffer env, createDescriptorSet env, createShaderModule env, createPipeline env,
    createCommandBuffer env, submitCommandBuffer env, saveImage env]

/-- `AOBench::run`. -/
def run (env : Env) (s : AOBench) : Outcome := runStages (stages env) s

/-- One guarded destroy of the destructor, `if (slot) { call }`. -/
def emit (slot : Option Nat) (c : Call) : List Call := if slot.isSome then [c] else []

/-- The calls `AOBench::~AOBench` makes, read off the handle members. -/
def destructorCalls (s : AOBench) : List Call :=
  (if s.device.isSome then
    [Call.vkDeviceWaitIdle] ++
    emit s.fence Call.vkDestroyFence ++
    emit s.commandPool Call.vkDestroyCommandPool ++
    emit s.pipeline Call.vkDestroyPipeline ++
    emit s.pipelineLayout Call.vkDestroyPipelineLayout ++
    emit s.shaderModule Call.vkDestroyShaderModule ++
    emit s.descriptorSetLayout Call.vkDestroyDescriptorSetLayout ++
    emit s.descriptorPool Call.vkDestroyDescriptorPool ++
    emit s.memory Call.vkFreeMemory ++
    emit s.buffer Call.vkDestroyBuffer ++
    [Call.vkDestroyDevice]
  else []) ++
  emit s.instance_ Call.vkDestroyInstance

/-- `AOBench::~AOBench`. -/
def destructor (s : AOBench) : AOBench := { s with trace := s.trace ++ destructorCalls s }

/-- What the process leaves behind: exit code, error stream, and the object
after its destructor has run (with the calls made and the file written). -/
structure ProcessResult where
  exitCode : Nat
  cerr : String
  final : AOBench

/-- Function `main`: construct, run, and on either path destroy the object
(at the end of the `try` block, or while the exception unwinds); an
exception is reported on the error stream and the exit code is
`EXIT_FAILURE`. -/
def main (env : Env) : ProcessResult :=
  let o := run env AOBench.new
  match o.thrown with
  | none => ⟨0, "", destructor o.state⟩
  | some msg => ⟨1, msg ++ "\n", destructor o.state⟩

/-! ## Resources, for stating what teardown releases -/

/-- The eleven resources whose handles the constructor initialises and the
destructor releases. -/
inductive Resource where
  | instance_
  | device
  | buffer
  | memory
  | descriptorSetLayout
  | descriptorPool
  | shaderModule
  | pipelineLayout
  | pipeline
  | commandPool
  | fence
deriving DecidableEq, Repr

/-- The handle member of a resource. -/
def AOBench.slot (s : AOBench) : Resource → Option Nat
  | Resource.instance_ => s.instance_
  | Resource.device => s.device
  | Resource.buffer => s.buffer
  | Resource.memory => s.memory
  | Resource.descriptorSetLayout => s.descriptorSetLayout
  | Resource.descriptorPool => s.descriptorPool
  | Resource.shaderModule => s.shaderModule
  | Resource.pipelineLayout => s.pipelineLayout
  | Resource.pipeline => s.pipeline
  | Resource.commandPool => s.commandPool
  | Resource.fence => s.fence

/-- The call that releases a resource. -/
def Resource.destroyCall : Resource → Call
  | Resource.instance_ => Call.vkDestroyInstance
  | Resource.device => Call.vkDestroyDevice
  | Resource.buffer => Call.vkDestroyBuffer
  | Resource.memory => Call.vkFreeMemory
  | Resource.descriptorSetLayout => Call.vkDestroyDescriptorSetLayout
  | Resource.descriptorPool => Call.vkDestroyDescriptorPool
  | Resource.shaderModule => Call.vkDestroyShaderModule
  | Resource.pipelineLayout => Call.vkDestroyPipelineLayout
  | Resource.pipeline => Call.vkDestroyPipeline
  | Resource.commandPool => Call.vkDestroyCommandPool
  | Resource.fence => Call.vkDestroyFence

/-- Resources created from the logical device (everything but the instance
and the device itself). -/
def Resource.deviceOwned : Resource → Bool
  | Resource.instance_ => false
  | Resource.device => false
  | _ => true

/-- The resource a call creates, if it is a creation call. -/
def Call.creates : Call → Option Resource
  | Call.vkCreateInstance => some Resource.instance_
  | Call.vkCreateDevice => some Resource.device
  | Call.vkCreateBuffer => some Resource.buffer
  | Call.vkAllocateMemory _ => some Resource.memory
  | Call.vkCreateDescriptorSetLayout => some Resource.descriptorSetLayout
  | Call.vkCreateDescriptorPool => some Resource.descriptorPool
  | Call.vkCreateShaderModule => some Resource.shaderModule
  | Call.vkCreatePipelineLayout => some Resource.pipelineLayout
  | Call.vkCreateComputePipelines => some Resource.pipeline
  | Call.vkCreateCommandPool => some Resource.commandPool
  | Call.vkCreateFence => some Resource.fence
  | _ => none

/-- The resource a call releases, if it is a release call. -/
def Call.destroys : Call → Option Resource
  | Call.vkDestroyInstance => some Resource.instance_
  | Call.vkDestroyDevice => some Resource.device
  | Call.vkDestroyBuffer => some Resource.buffer
  | Call.vkFreeMemory => some Resource.memory
  | Call.vkDestroyDescriptorSetLayout => some Resource.descriptorSetLayout
  | Call.vkDestroyDescriptorPool => some Resource.descriptorPool
  | Call.vkDestroyShaderModule => some Resource.shaderModule
  | Call.vkDestroyPipelineLayout => some Resource.pipelineLayout
  | Call.vkDestroyPipeline => some Resource.pipeline
  | Call.vkDestroyCommandPool => some Resource.commandPool
  | Call.vkDestroyFence => some Resource.fence
  | _ => none

/-- The resources in the order their creation calls appear in a trace. -/
def createdOrder (trace : List Call) : List Resource := trace.filterMap Call.creates

/-- The resources in the order their release calls appear in a trace. -/
def destroyedOrder (trace : List Call) : List Resource := trace.filterMap Call.destroys

/-- No resource created from the device is held. -/
def AOBench.noDeviceChildren (s : AOBench) : Prop :=
  ∀ r, r.deviceOwned = true → s.slot r = none

/-- The three shapes the handle members take while `run` proceeds: nothing
held; only the instance held; instance and device held. -/
def AOBench.Staged (s : AOBench) : Prop :=
  (s.instance_ = none ∧ s.device = none ∧ s.noDeviceChildren) ∨
  (s.instance_.isSome = true ∧ s.device = none ∧ s.noDeviceChildren) ∨
  (s.instance_.isSome = true ∧ s.device.isSome = true)

/-- The file has not been written. -/
def AOBench.Unwritten (s : AOBench) : Prop :=
  s.aoPpm = none ∧ Call.writeOutputFile ∉ s.trace

/-- The object at a boundary between two stages of a run that has not thrown:
the file is unwritten, the creation calls made so far are `created`, in that
order, and exactly the handles of `created` are held. -/
def AOBench.Progress (created : List Resource) (s : AOBench) : Prop :=
  s.Unwritten ∧ createdOrder s.trace = created ∧
    ∀ r, (s.slot r).isSome = decide (r ∈ created)

/-- The order in which the body of `run` creates the resources. -/
def creationOrder : List Resource :=
  [Resource.instance_, Resource.device, Resource.buffer, Resource.memory,
    Resource.descriptorSetLayout, Resource.descriptorPool, Resource.shaderModule,
    Resource.pipelineLayout, Resource.pipeline, Resource.commandPool, Resource.fence]

/-- The order of the constructor's member initialiser list. -/
def initialiserOrder : List Resource :=
  [Resource.instance_, Resource.device, Resource.buffer, Resource.memory,
    Resource.descriptorPool, Resource.descriptorSetLayout, Resource.shaderModule,
    Resource.pipelineLayout, Resource.pipeline, Resource.commandPool, Resource.fence]

/-- The order in which the destructor visits the resources. -/
def teardownOrder : List Resource :=
  [Resource.fence, Resource.commandPool, Resource.pipeline, Resource.pipelineLayout,
    Resource.shaderModule, Resource.descriptorSetLayout, Resource.descriptorPool,
    Resource.memory, Resource.buffer, Resource.device, Resource.instance_]

/-- What holds of `run` however it ends: the handles are in one of the staged
shapes; if it threw, the file is unwritten; if it did not, every resource was
created, in creation order, and every handle is held. -/
def Outcome.Settled (o : Outcome) : Prop :=
  o.state.Staged ∧ (o.thrown ≠ none → o.state.Unwritten) ∧
    (o.thrown = none →
      createdOrder o.state.trace = creationOrder ∧ ∀ r, (o.state.slot r).isSome = true)

/-- The outcome of the first `k` stages of `run` on a fresh object. -/
def runFirst (env : Env) (k : Nat) : Outcome :=
  runStages ((stages env).take k) AOBench.new

/-- Nothing of the pipeline exists and no pipeline creation was attempted. -/
def AOBench.NoPipeline (s : AOBench) : Prop :=
  s.pipelineLayout = none ∧ s.pipeline = none ∧ Call.vkCreatePipelineLayout ∉ s.trace ∧
    Call.vkCreateComputePipelines ∉ s.trace

/-- An environment in which every call succeeds: two accelerators, a second
queue family with compute, memory type 1 host-visible and host-coherent, and
a mapped buffer in which every pixel is `(1, 0, 0, 1)`. -/
def Env.allSucceed : Env :=
  { vkCreateInstance := some 1, vkEnumeratePhysicalDevicesCount := true,
    physicalDevices := [7, 8], vkEnumeratePhysicalDevicesList := true,
    queueFamilyProperties := [⟨4, 2⟩, ⟨2, 1⟩, ⟨3, 8⟩],
    vkCreateDevice := some 2, vkGetDeviceQueue := 3, vkCreateBuffer := some 4,
    memoryTypeBits := 6, memoryProperties := ⟨3, [1, 6, 7]⟩, vkAllocateMemory := some 5,
    vkBindBufferMemory := true, vkCreateDescriptorSetLayout := some 6,
    vkCreateDescriptorPool := some 7, vkAllocateDescriptorSets := some 8,
    shaderFile := some [3, 2, 35, 7], vkCreateShaderModule := some 9,
    vkCreatePipelineLayout := some 10, vkCreateComputePipelines := some 11,
    vkCreateCommandPool := some 12, vkAllocateCommandBuffers := some 13,
    vkBeginCommandBuffer := true, vkEndCommandBuffer := true, vkCreateFence := some 14,
    vkQueueSubmit := true, vkWaitForFences := true,
    vkMapMemory := some (fun _ => ⟨⟨1, 149⟩, ⟨0, 0⟩, ⟨0, 0⟩, ⟨1, 149⟩⟩) }

/-! ## Theorems -/

/-- Masking with a single bit is non-zero exactly when that bit is set. -/
theorem and_two_pow_ne_zero_iff (x i : Nat) : x &&& 2 ^ i ≠ 0 ↔ x.testBit i = true := by
  rw [Nat.and_two_pow]
  cases h : x.testBit i <;> simp

/-- Masking on the left with a single bit. -/
theorem two_pow_and_ne_zero_iff (x i : Nat) : 2 ^ i &&& x ≠ 0 ↔ x.testBit i = true := by
  rw [Nat.and_comm]; exact and_two_pow_ne_zero_iff x i

/-- The queue-family test of the code: at least one queue and bit 1 of the flags. -/
theorem queueFamilyTest_iff (p : VkQueueFamilyProperties) :
    queueFamilyTest p = true ↔ 1 ≤ p.queueCount ∧ p.queueFlags.testBit 1 = true := by
  have h := and_two_pow_ne_zero_iff p.queueFlags 1
  simp only [pow_one] at h
  unfold queueFamilyTest VK_QUEUE_COMPUTE_BIT
  rw [Bool.and_eq_true, decide_eq_true_eq, decide_eq_true_eq, h]
  exact Iff.rfl

/-- The memory-flags test of the code: bits 1 and 2 of the property flags. -/
theorem memoryFlagsTest_iff (flags : Nat) :
    memoryFlagsTest flags = true ↔ flags.testBit 1 = true ∧ flags.testBit 2 = true := by
  have h1 := and_two_pow_ne_zero_iff flags 1
  have h2 := and_two_pow_ne_zero_iff flags 2
  have e1 : (2 : Nat) ^ 1 = 2 := by norm_num
  have e2 : (2 : Nat) ^ 2 = 4 := by norm_num
  rw [e1] at h1
  rw [e2] at h2
  unfold memoryFlagsTest VK_MEMORY_PROPERTY_HOST_VISIBLE_BIT VK_MEMORY_PROPERTY_HOST_COHERENT_BIT
  rw [Bool.and_eq_true, decide_eq_true_eq, decide_eq_true_eq, h1, h2]

/-- For an index below 32 the shifted-one test reads bit `i` of the mask. -/
theorem memoryTypeBitTest_iff (i bits : Nat) (hi : i < 32) :
    memoryTypeBitTest i bits = true ↔ bits.testBit i = true := by
  have hlt : 2 ^ i < 2 ^ 32 := Nat.pow_lt_pow_right (by norm_num) hi
  unfold memoryTypeBitTest
  rw [decide_eq_true_eq, Nat.shiftLeft_eq, one_mul, Nat.mod_eq_of_lt hlt]
  exact two_pow_and_ne_zero_iff bits i

/-- Behaviour of the queue-family loop started at index `i`. -/
theorem findQueueFamilyLoop_spec (ps : List VkQueueFamilyProperties) (i : Nat) :
    (∀ k, k < ps.length → queueFamilyTest (ps.getD k ⟨0, 0⟩) = true →
      (∀ j, j < k → queueFamilyTest (ps.getD j ⟨0, 0⟩) = false) →
      findQueueFamilyLoop ps i = Except.ok (i + k)) ∧
    ((∀ k, k < ps.length → queueFamilyTest (ps.getD k ⟨0, 0⟩) = false) →
      findQueueFamilyLoop ps i =
        Except.error "queue family with VK_QUEUE_COMPUTE_BIT not found") := by
  induction ps generalizing i with
  | nil => exact ⟨fun k hk => absurd hk (by simp), fun _ => rfl⟩
  | cons p ps ih =>
    refine ⟨?_, ?_⟩
    · intro k hk hq hmin
      cases k with
      | zero =>
        have : queueFamilyTest p = true := by simpa using hq
        simp [findQueueFamilyLoop, this]
      | succ k =>
        have h0 : queueFamilyTest p = false := by simpa using hmin 0 (Nat.succ_pos k)
        have hk2 : k < ps.length := by simpa using hk
        have := (ih (i + 1)).1 k hk2 (by simpa using hq)
          (fun j hj => by simpa using hmin (j + 1) (Nat.succ_lt_succ hj))
        simp only [findQueueFamilyLoop, h0, Bool.false_eq_true, if_false, this]
        congr 1; omega
    · intro hall
      have h0 : queueFamilyTest p = false := by simpa using hall 0 (by simp)
      have := (ih (i + 1)).2 (fun k hk => by
        simpa using hall (k + 1) (by simpa using hk))
      simp only [findQueueFamilyLoop, h0, Bool.false_eq_true, if_false, this]

/-- Behaviour of the memory-type loop started at index `i` with `fuel` iterations left. -/
theorem findMemoryTypeIndexLoop_spec (props : VkPhysicalDeviceMemoryProperties) (bits : Nat)
    (fuel i : Nat) :
    (∀ k, k < fuel → memoryTypeTest props bits (i + k) = true →
      (∀ j, j < k → memoryTypeTest props bits (i + j) = false) →
      findMemoryTypeIndexLoop props bits fuel i = Except.ok (i + k)) ∧
    ((∀ k, k < fuel → memoryTypeTest props bits (i + k) = false) →
      findMemoryTypeIndexLoop props bits fuel i =
        Except.error "suitable memory type not found") := by
  induction fuel generalizing i with
  | zero => exact ⟨fun k hk => absurd hk (Nat.not_lt_zero k), fun _ => rfl⟩
  | succ fuel ih =>
    refine ⟨?_, ?_⟩
    · intro k hk hq hmin
      cases k with
      | zero =>
        have h0 : (memoryTypeBitTest i bits &&
            memoryFlagsTest (props.memoryTypes.getD i 0)) = true := hq
        rw [findMemoryTypeIndexLoop, if_pos h0]; rfl
      | succ k =>
        have h0 : (memoryTypeBitTest i bits &&
            memoryFlagsTest (props.memoryTypes.getD i 0)) = false := hmin 0 (Nat.succ_pos k)
        have e1 : i + 1 + k = i + (k + 1) := by omega
        have := (ih (i + 1)).1 k (Nat.lt_of_succ_lt_succ hk) (by rw [e1]; exact hq)
          (fun j hj => by
            have e2 : i + 1 + j = i + (j + 1) := by omega
            rw [e2]; exact hmin (j + 1) (Nat.succ_lt_succ hj))
        rw [findMemoryTypeIndexLoop, h0, if_neg (by simp), this, e1]
    · intro hall
      have h0 : (memoryTypeBitTest i bits &&
          memoryFlagsTest (props.memoryTypes.getD i 0)) = false := hall 0 (Nat.succ_pos fuel)
      have := (ih (i + 1)).2 (fun k hk => by
        have e2 : i + 1 + k = i + (k + 1) := by omega
        rw [e2]; exact hall (k + 1) (Nat.succ_lt_succ hk))
      rw [findMemoryTypeIndexLoop, h0, if_neg (by simp), this]

/-- Below index 32 the combined test says: the bit is requested and the entry
is host-visible and host-coherent. -/
theorem memoryTypeTest_iff (props : VkPhysicalDeviceMemoryProperties) (bits i : Nat)
    (hi : i < 32) :
    memoryTypeTest props bits i = true ↔
      (bits.testBit i = true ∧ (props.memoryTypes.getD i 0).testBit 1 = true ∧
        (props.memoryTypes.getD i 0).testBit 2 = true) := by
  unfold memoryTypeTest
  rw [Bool.and_eq_true, memoryTypeBitTest_iff i bits hi, memoryFlagsTest_iff]

/-- C1. `findQueueFamily` over the reported families: when some family has at
least one queue and the compute bit, `queueFamilyIndex` becomes the lowest
index of such a family and nothing is thrown; when no family qualifies, the
"queue family with VK_QUEUE_COMPUTE_BIT not found" exception is thrown and
`queueFamilyIndex` is left as it was. -/
theorem findQueueFamily_lowest_or_error (env : Env) (s : AOBench) :
    (∀ k, k < env.queueFamilyProperties.length →
      (1 ≤ (env.queueFamilyProperties.getD k ⟨0, 0⟩).queueCount ∧
        (env.queueFamilyProperties.getD k ⟨0, 0⟩).queueFlags.testBit 1 = true) →
      (∀ j, j < k → ¬ (1 ≤ (env.queueFamilyProperties.getD j ⟨0, 0⟩).queueCount ∧
        (env.queueFamilyProperties.getD j ⟨0, 0⟩).queueFlags.testBit 1 = true)) →
      (findQueueFamily env s).thrown = none ∧
        (findQueueFamily env s).state.queueFamilyIndex = some k) ∧
    ((∀ k, k < env.queueFamilyProperties.length →
        ¬ (1 ≤ (env.queueFamilyProperties.getD k ⟨0, 0⟩).queueCount ∧
          (env.queueFamilyProperties.getD k ⟨0, 0⟩).queueFlags.testBit 1 = true)) →
      (findQueueFamily env s).thrown =
          some "queue family with VK_QUEUE_COMPUTE_BIT not found" ∧
        (findQueueFamily env s).state.queueFamilyIndex = s.queueFamilyIndex) := by
  have hspec := findQueueFamilyLoop_spec env.queueFamilyProperties 0
  refine ⟨?_, ?_⟩
  · intro k hk hq hmin
    have h := hspec.1 k hk ((queueFamilyTest_iff _).2 hq) (fun j hj => by
      have := hmin j hj
      rw [← queueFamilyTest_iff] at this
      simpa using this)
    rw [Nat.zero_add] at h
    simp [findQueueFamily, h]
  · intro hall
    have h := hspec.2 (fun k hk => by
      have := hall k hk
      rw [← queueFamilyTest_iff] at this
      simpa using this)
    simp [findQueueFamily, h, AOBench.call]

/-- C1, at a concrete list: three families, of which the second and the third
qualify. -/
theorem findQueueFamily_lowest_or_error_witness :
    (findQueueFamily Env.allSucceed AOBench.new).thrown = none ∧
      (findQueueFamily Env.allSucceed AOBench.new).state.queueFamilyIndex = some 1 :=
  (findQueueFamily_lowest_or_error Env.allSucceed AOBench.new).1 1
    (by decide) (by decide) (by decide)

/-- C2. `findMemoryTypeIndex` over a requirement mask and a table of at most
32 memory types: the result is the lowest index below `memoryTypeCount` whose
bit is set in the mask and whose entry is host-visible and host-coherent; when
no index qualifies, the "suitable memory type not found" exception is thrown. -/
theorem findMemoryTypeIndex_lowest_or_error (props : VkPhysicalDeviceMemoryProperties)
    (memoryTypeBits : Nat) (hcount : props.memoryTypeCount ≤ 32) :
    (∀ i, i < props.memoryTypeCount →
      (memoryTypeBits.testBit i = true ∧ (props.memoryTypes.getD i 0).testBit 1 = true ∧
        (props.memoryTypes.getD i 0).testBit 2 = true) →
      (∀ j, j < i → ¬ (memoryTypeBits.testBit j = true ∧
        (props.memoryTypes.getD j 0).testBit 1 = true ∧
        (props.memoryTypes.getD j 0).testBit 2 = true)) →
      findMemoryTypeIndex props memoryTypeBits = Except.ok i) ∧
    ((∀ i, i < props.memoryTypeCount →
        ¬ (memoryTypeBits.testBit i = true ∧ (props.memoryTypes.getD i 0).testBit 1 = true ∧
          (props.memoryTypes.getD i 0).testBit 2 = true)) →
      findMemoryTypeIndex props memoryTypeBits =
        Except.error "suitable memory type not found") := by
  have hspec := findMemoryTypeIndexLoop_spec props memoryTypeBits props.memoryTypeCount 0
  simp only [Nat.zero_add] at hspec
  refine ⟨?_, ?_⟩
  · intro i hi hq hmin
    exact hspec.1 i hi ((memoryTypeTest_iff props _ i (by omega)).2 hq) (fun j hj => by
      have := hmin j hj
      rw [← memoryTypeTest_iff props _ j (by omega)] at this
      simpa using this)
  · intro hall
    exact hspec.2 (fun i hi => by
      have := hall i hi
      rw [← memoryTypeTest_iff props _ i (by omega)] at this
      simpa using this)

/-- C2, at a concrete table: mask `0b110`, of types 1 and 2 both host-visible
and host-coherent, type 1 is chosen. -/
theorem findMemoryTypeIndex_lowest_or_error_witness :
    findMemoryTypeIndex ⟨3, [1, 6, 7]⟩ 6 = Except.ok 1 :=
  (findMemoryTypeIndex_lowest_or_error ⟨3, [1, 6, 7]⟩ 6 (by decide)).1 1
    (by decide) (by decide) (by decide)

/-- C7. `acquirePhysicalDevice` over the enumerated accelerators (both
enumeration calls returning `VK_SUCCESS`): for a non-empty list the first
element becomes `physicalDevice`; for the empty list "physical device not
found" is thrown, and the whole run then never queries queue families and
never creates a logical device. -/
theorem acquirePhysicalDevice_first_or_error (env : Env) (s : AOBench)
    (hcount : env.vkEnumeratePhysicalDevicesCount = true) :
    (∀ d ds, env.physicalDevices = d :: ds → env.vkEnumeratePhysicalDevicesList = true →
      (acquirePhysicalDevice env s).thrown = none ∧
        (acquirePhysicalDevice env s).state.physicalDevice = some d) ∧
    (env.physicalDevices = [] →
      (acquirePhysicalDevice env s).thrown = some "physical device not found" ∧
        (acquirePhysicalDevice env s).state.physicalDevice = s.physicalDevice ∧
        (main env).exitCode = 1 ∧
        Call.vkGetPhysicalDeviceQueueFamilyProperties ∉ (main env).final.trace ∧
        Call.vkCreateDevice ∉ (main env).final.trace ∧
        (main env).final.device = none) := by
  refine ⟨?_, ?_⟩
  · intro d ds hl hlist
    simp [acquirePhysicalDevice, hcount, hl, hlist]
  · intro hl
    refine ⟨?_, ?_, ?_⟩
    · simp [acquirePhysicalDevice, hcount, hl]
    · simp [acquirePhysicalDevice, hcount, hl, AOBench.call]
    · cases h1 : env.vkCreateInstance <;>
        simp [main, run, stages, runStages, createInstance, acquirePhysicalDevice, hcount, hl,
          h1, AOBench.call, destructor, destructorCalls, emit, AOBench.new]

/-- C7, at concrete inputs: two accelerators, the first is kept. -/
theorem acquirePhysicalDevice_first_or_error_witness :
    (acquirePhysicalDevice Env.allSucceed AOBench.new).thrown = none ∧
      (acquirePhysicalDevice Env.allSucceed AOBench.new).state.physicalDevice = some 7 :=
  (acquirePhysicalDevice_first_or_error Env.allSucceed AOBench.new rfl).1 7 [8] rfl rfl

/-! ### Stage by stage -/

/-- A statement about every resource is a statement about each of the eleven. -/
theorem forall_resource (p : Resource → Prop) :
    (∀ r, p r) ↔ (p Resource.instance_ ∧ p Resource.device ∧ p Resource.buffer ∧
      p Resource.memory ∧ p Resource.descriptorSetLayout ∧ p Resource.descriptorPool ∧
      p Resource.shaderModule ∧ p Resource.pipelineLayout ∧ p Resource.pipeline ∧
      p Resource.commandPool ∧ p Resource.fence) := by
  constructor
  · intro h; exact ⟨h _, h _, h _, h _, h _, h _, h _, h _, h _, h _, h _⟩
  · rintro ⟨h1, h2, h3, h4, h5, h6, h7, h8, h9, h10, h11⟩ r
    cases r <;> assumption

/-- Sequencing rule: a stage that takes `P` to `Q` when it returns and to `R`
when it throws, followed by stages that take `Q` to `R`. -/
theorem runStages_cons_post {P Q : AOBench → Prop} {R : Outcome → Prop}
    (f : AOBench → Outcome) (fs : List (AOBench → Outcome))
    (hf : ∀ s, P s → ((f s).thrown = none → Q (f s).state) ∧
      (∀ msg, (f s).thrown = some msg → R ⟨(f s).state, some msg⟩))
    (hfs : ∀ s, Q s → R (runStages fs s)) :
    ∀ s, P s → R (runStages (f :: fs) s) := by
  intro s hP
  rw [runStages]
  cases h : (f s).thrown with
  | none => exact hfs _ ((hf s hP).1 h)
  | some msg => exact (hf s hP).2 msg h

/-- `createInstance` from one stage boundary to the next, or to a settled throw. -/
theorem createInstance_progress (env : Env) (s : AOBench)
    (h : s.Progress
      []) :
    ((createInstance env s).thrown = none →
      (createInstance env s).state.Progress
        [Resource.instance_]) ∧
    (∀ msg, (createInstance env s).thrown = some msg →
      Outcome.Settled ⟨(createInstance env s).state, some msg⟩) := by
  unfold createInstance
  simp only [AOBench.Progress, Outcome.Settled, AOBench.Staged, AOBench.noDeviceChildren,
    forall_resource, AOBench.slot, AOBench.Unwritten, createdOrder] at h ⊢
  repeat' split
  all_goals simp_all [AOBench.call, Call.creates, Resource.deviceOwned, List.filterMap_append]

/-- `acquirePhysicalDevice` from one stage boundary to the next, or to a settled throw. -/
theorem acquirePhysicalDevice_progress (env : Env) (s : AOBench)
    (h : s.Progress
      [Resource.instance_]) :
    ((acquirePhysicalDevice env s).thrown = none →
      (acquirePhysicalDevice env s).state.Progress
        [Resource.instance_]) ∧
    (∀ msg, (acquirePhysicalDevice env s).thrown = some msg →
      Outcome.Settled ⟨(acquirePhysicalDevice env s).state, some msg⟩) := by
  unfold acquirePhysicalDevice
  simp only [AOBench.Progress, Outcome.Settled, AOBench.Staged, AOBench.noDeviceChildren,
    forall_resource, AOBench.slot, AOBench.Unwritten, createdOrder] at h ⊢
  repeat' split
  all_goals simp_all [AOBench.call, Call.creates, Resource.deviceOwned, List.filterMap_append]

/-- `findQueueFamily` from one stage boundary to the next, or to a settled throw. -/
theorem findQueueFamily_progress (env : Env) (s : AOBench)
    (h : s.Progress
      [Resource.instance_]) :
    ((findQueueFamily env s).thrown = none →
      (findQueueFamily env s).state.Progress
        [Resource.instance_]) ∧
    (∀ msg, (findQueueFamily env s).thrown = some msg →
      Outcome.Settled ⟨(findQueueFamily env s).state, some msg⟩) := by
  unfold findQueueFamily
  simp only [AOBench.Progress, Outcome.Settled, AOBench.Staged, AOBench.noDeviceChildren,
    forall_resource, AOBench.slot, AOBench.Unwritten, createdOrder] at h ⊢
  repeat' split
  all_goals simp_all [AOBench.call, Call.creates, Resource.deviceOwned, List.filterMap_append]

/-- `createDevice` from one stage boundary to the next, or to a settled throw. -/
theorem createDevice_progress (env : Env) (s : AOBench)
    (h : s.Progress
      [Resource.instance_]) :
    ((createDevice env s).thrown = none →
      (createDevice env s).state.Progress
        [Resource.instance_, Resource.device]) ∧
    (∀ msg, (createDevice env s).thrown = some msg →
      Outcome.Settled ⟨(createDevice env s).state, some msg⟩) := by
  unfold createDevice
  simp only [AOBench.Progress, Outcome.Settled, AOBench.Staged, AOBench.noDeviceChildren,
    forall_resource, AOBench.slot, AOBench.Unwritten, createdOrder] at h ⊢
  repeat' split
  all_goals simp_all [AOBench.call, Call.creates, Resource.deviceOwned, List.filterMap_append]

/-- `createBuffer` from one stage boundary to the next, or to a settled throw. -/
theorem createBuffer_progress (env : Env) (s : AOBench)
    (h : s.Progress
      [Resource.instance_, Resource.device]) :
    ((createBuffer env s).thrown = none →
      (createBuffer env s).state.Progress
        [Resource.instance_, Resource.device, Resource.buffer, Resource.memory]) ∧
    (∀ msg, (createBuffer env s).thrown = some msg →
      Outcome.Settled ⟨(createBuffer env s).state, some msg⟩) := by
  unfold createBuffer
  simp only [AOBench.Progress, Outcome.Settled, AOBench.Staged, AOBench.noDeviceChildren,
    forall_resource, AOBench.slot, AOBench.Unwritten, createdOrder] at h ⊢
  repeat' split
  all_goals simp_all [AOBench.call, Call.creates, Resource.deviceOwned, List.filterMap_append]

/-- `createDescriptorSet` from one stage boundary to the next, or to a settled throw. -/
theorem createDescriptorSet_progress (env : Env) (s : AOBench)
    (h : s.Progress
      [Resource.instance_, Resource.device, Resource.buffer, Resource.memory]) :
    ((createDescriptorSet env s).thrown = none →
      (createDescriptorSet env s).state.Progress
        [Resource.instance_, Resource.device, Resource.buffer, Resource.memory,
        Resource.descriptorSetLayout, Resource.descriptorPool]) ∧
    (∀ msg, (createDescriptorSet env s).thrown = some msg →
      Outcome.Settled ⟨(createDescriptorSet env s).state, some msg⟩) := by
  unfold createDescriptorSet
  simp only [AOBench.Progress, Outcome.Settled, AOBench.Staged, AOBench.noDeviceChildren,
    forall_resource, AOBench.slot, AOBench.Unwritten, createdOrder] at h ⊢
  repeat' split
  all_goals simp_all [AOBench.call, Call.creates, Resource.deviceOwned, List.filterMap_append]

/-- `createShaderModule` from one stage boundary to the next, or to a settled throw. -/
theorem createShaderModule_progress (env : Env) (s : AOBench)
    (h : s.Progress
      [Resource.instance_, Resource.device, Resource.buffer, Resource.memory,
      Resource.descriptorSetLayout, Resource.descriptorPool]) :
    ((createShaderModule env s).thrown = none →
      (createShaderModule env s).state.Progress
        [Resource.instance_, Resource.device, Resource.buffer, Resource.memory,
        Resource.descriptorSetLayout, Resource.descriptorPool, Resource.shaderModule]) ∧
    (∀ msg, (createShaderModule env s).thrown = some msg →
      Outcome.Settled ⟨(createShaderModule env s).state, some msg⟩) := by
  unfold createShaderModule
  simp only [AOBench.Progress, Outcome.Settled, AOBench.Staged, AOBench.noDeviceChildren,
    forall_resource, AOBench.slot, AOBench.Unwritten, createdOrder] at h ⊢
  repeat' split
  all_goals simp_all [AOBench.call, Call.creates, Resource.deviceOwned, List.filterMap_append]

/-- `createPipeline` from one stage boundary to the next, or to a settled throw. -/
theorem createPipeline_progress (env : Env) (s : AOBench)
    (h : s.Progress
      [Resource.instance_, Resource.device, Resource.buffer, Resource.memory,
      Resource.descriptorSetLayout, Resource.descriptorPool, Resource.shaderModule]) :
    ((createPipeline env s).thrown = none →
      (createPipeline env s).state.Progress
        [Resource.instance_, Resource.device, Resource.buffer, Resource.memory,
        Resource.descriptorSetLayout, Resource.descriptorPool, Resource.shaderModule,
        Resource.pipelineLayout, Resource.pipeline]) ∧
    (∀ msg, (createPipeline env s).thrown = some msg →
      Outcome.Settled ⟨(createPipeline env s).state, some msg⟩) := by
  unfold createPipeline
  simp only [AOBench.Progress, Outcome.Settled, AOBench.Staged, AOBench.noDeviceChildren,
    forall_resource, AOBench.slot, AOBench.Unwritten, createdOrder] at h ⊢
  repeat' split
  all_goals simp_all [AOBench.call, Call.creates, Resource.deviceOwned, List.filterMap_append]

/-- `createCommandBuffer` from one stage boundary to the next, or to a settled throw. -/
theorem createCommandBuffer_progress (env : Env) (s : AOBench)
    (h : s.Progress
      [Resource.instance_, Resource.device, Resource.buffer, Resource.memory,
      Resource.descriptorSetLayout, Resource.descriptorPool, Resource.shaderModule,
      Resource.pipelineLayout, Resource.pipeline]) :
    ((createCommandBuffer env s).thrown = none →
      (createCommandBuffer env s).state.Progress
        [Resource.instance_, Resource.device, Resource.buffer, Resource.memory,
        Resource.descriptorSetLayout, Resource.descriptorPool, Resource.shaderModule,
        Resource.pipelineLayout, Resource.pipeline, Resource.commandPool]) ∧
    (∀ msg, (createCommandBuffer env s).thrown = some msg →
      Outcome.Settled ⟨(createCommandBuffer env s).state, some msg⟩) := by
  unfold createCommandBuffer
  simp only [AOBench.Progress, Outcome.Settled, AOBench.Staged, AOBench.noDeviceChildren,
    forall_resource, AOBench.slot, AOBench.Unwritten, createdOrder] at h ⊢
  repeat' split
  all_goals simp_all [AOBench.call, Call.creates, Resource.deviceOwned, List.filterMap_append]

/-- `submitCommandBuffer` from one stage boundary to the next, or to a settled throw. -/
theorem submitCommandBuffer_progress (env : Env) (s : AOBench)
    (h : s.Progress
      [Resource.instance_, Resource.device, Resource.buffer, Resource.memory,
      Resource.descriptorSetLayout, Resource.descriptorPool, Resource.shaderModule,
      Resource.pipelineLayout, Resource.pipeline, Resource.commandPool]) :
    ((submitCommandBuffer env s).thrown = none →
      (submitCommandBuffer env s).state.Progress
        [Resource.instance_, Resource.device, Resource.buffer, Resource.memory,
        Resource.descriptorSetLayout, Resource.descriptorPool, Resource.shaderModule,
        Resource.pipelineLayout, Resource.pipeline, Resource.commandPool, Resource.fence]) ∧
    (∀ msg, (submitCommandBuffer env s).thrown = some msg →
      Outcome.Settled ⟨(submitCommandBuffer env s).state, some msg⟩) := by
  unfold submitCommandBuffer
  simp only [AOBench.Progress, Outcome.Settled, AOBench.Staged, AOBench.noDeviceChildren,
    forall_resource, AOBench.slot, AOBench.Unwritten, createdOrder] at h ⊢
  repeat' split
  all_goals simp_all [AOBench.call, Call.creates, Resource.deviceOwned, List.filterMap_append]

/-- `saveImage`, the last stage: whichever way it ends, the run is settled. -/
theorem saveImage_progress (env : Env) (s : AOBench)
    (h : s.Progress creationOrder) :
    ((saveImage env s).thrown = none → Outcome.Settled ⟨(saveImage env s).state, none⟩) ∧
    (∀ msg, (saveImage env s).thrown = some msg →
      Outcome.Settled ⟨(saveImage env s).state, some msg⟩) := by
  unfold saveImage
  simp only [AOBench.Progress, Outcome.Settled, AOBench.Staged, AOBench.noDeviceChildren,
    forall_resource, AOBench.slot, AOBench.Unwritten, createdOrder, creationOrder] at h ⊢
  repeat' split
  all_goals simp_all [AOBench.call, Call.creates, Resource.deviceOwned, List.filterMap_append]

/-- However `run` ends on a fresh object, the outcome is settled. -/
theorem run_settled (env : Env) : (run env AOBench.new).Settled := by
  have h0 : AOBench.new.Progress [] := by
    simp [AOBench.Progress, AOBench.new, AOBench.Unwritten, createdOrder, forall_resource,
      AOBench.slot]
  unfold run stages
  refine runStages_cons_post (R := Outcome.Settled) _ _ (createInstance_progress env) ?_ _ h0
  refine runStages_cons_post _ _ (acquirePhysicalDevice_progress env) ?_
  refine runStages_cons_post _ _ (findQueueFamily_progress env) ?_
  refine runStages_cons_post _ _ (createDevice_progress env) ?_
  refine runStages_cons_post _ _ (createBuffer_progress env) ?_
  refine runStages_cons_post _ _ (createDescriptorSet_progress env) ?_
  refine runStages_cons_post _ _ (createShaderModule_progress env) ?_
  refine runStages_cons_post _ _ (createPipeline_progress env) ?_
  refine runStages_cons_post _ _ (createCommandBuffer_progress env) ?_
  refine runStages_cons_post _ _ (submitCommandBuffer_progress env) ?_
  refine runStages_cons_post (Q := fun s => Outcome.Settled ⟨s, none⟩) _ _
    (saveImage_progress env) ?_
  intro s hs
  exact hs

/-! ### Sequencing -/

/-- The stages run without an exception exactly when each stage, started in
the state its predecessors leave, returns. -/
theorem runStages_thrown_none_iff (fs : List (AOBench → Outcome)) (s : AOBench) :
    (runStages fs s).thrown = none ↔
      ∀ (k : Nat) (f : AOBench → Outcome), fs[k]? = some f →
        (f (runStages (fs.take k) s).state).thrown = none := by
  induction fs generalizing s with
  | nil => simp [runStages]
  | cons g gs ih =>
    constructor
    · intro h k f hk
      cases k with
      | zero =>
        have hg : g = f := by simpa using hk
        subst hg
        rw [runStages] at h
        cases hgs : (g s).thrown with
        | none => simp [runStages, hgs]
        | some msg => rw [hgs] at h; simp at h
      | succ k =>
        rw [runStages] at h
        cases hgs : (g s).thrown with
        | none =>
          rw [hgs] at h
          have := (ih (g s).state).1 h k f (by simpa using hk)
          simpa [runStages, hgs] using this
        | some msg => rw [hgs] at h; simp at h
    · intro h
      have h0 : (g s).thrown = none := by simpa [runStages] using h 0 g (by simp)
      rw [runStages, h0]
      refine (ih (g s).state).2 (fun k f hk => ?_)
      have := h (k + 1) f (by simpa using hk)
      simpa [runStages, h0] using this

/-- The first stage that throws ends the sequence: the outcome of the whole
is the outcome of that stage. -/
theorem runStages_first_throw (fs : List (AOBench → Outcome)) (s : AOBench) (k : Nat)
    (f : AOBench → Outcome) (msg : String) (hk : fs[k]? = some f)
    (hpre : (runStages (fs.take k) s).thrown = none)
    (hf : (f (runStages (fs.take k) s).state).thrown = some msg) :
    runStages fs s = ⟨(f (runStages (fs.take k) s).state).state, some msg⟩ := by
  induction fs generalizing s k with
  | nil => simp at hk
  | cons g gs ih =>
    cases k with
    | zero =>
      have hg : g = f := by simpa using hk
      subst hg
      have hf2 : (g s).thrown = some msg := by simpa [runStages] using hf
      simp [runStages, hf2]
    | succ k =>
      cases hgs : (g s).thrown with
      | none =>
        have hpre2 : (runStages (gs.take k) (g s).state).thrown = none := by
          simpa [runStages, hgs] using hpre
        have hf3 : (f (runStages (gs.take k) (g s).state).state).thrown = some msg := by
          simpa [runStages, hgs] using hf
        have := ih (g s).state k (by simpa using hk) hpre2 hf3
        simpa [runStages, hgs] using this
      | some m =>
        have : (runStages (List.take (k + 1) (g :: gs)) s).thrown = some m := by
          simp [runStages, hgs]
        rw [this] at hpre
        simp at hpre

/-- The stages run in two parts. -/
theorem runStages_append (fs gs : List (AOBench → Outcome)) (s : AOBench) :
    runStages (fs ++ gs) s =
      match (runStages fs s).thrown with
      | none => runStages gs (runStages fs s).state
      | some _ => runStages fs s := by
  induction fs generalizing s with
  | nil => simp [runStages]
  | cons g fs ih =>
    cases hgs : (g s).thrown with
    | none => simp [runStages, hgs, ih]
    | some m => simp [runStages, hgs]

/-- A property every stage keeps is kept by the sequence. -/
theorem runStages_preserves (P : AOBench → Prop) (fs : List (AOBench → Outcome))
    (h : ∀ f, f ∈ fs → ∀ s, P s → P (f s).state) (s : AOBench) (hs : P s) :
    P (runStages fs s).state := by
  induction fs generalizing s with
  | nil => simpa [runStages] using hs
  | cons g fs ih =>
    have hg := h g (List.mem_cons_self g fs) s hs
    cases hgs : (g s).thrown with
    | none =>
      simpa [runStages, hgs] using
        ih (fun f hf => h f (List.mem_cons_of_mem g hf)) (g s).state hg
    | some m => simpa [runStages, hgs] using hg

/-! ### Exit code and the missing shader file -/

/-- The exit code is `0` exactly when `run` does not throw. -/
theorem main_exitCode_eq_zero_iff (env : Env) :
    (main env).exitCode = 0 ↔ (run env AOBench.new).thrown = none := by
  simp only [main]
  split <;> simp_all

/-- After `main`, the object is what the destructor makes of what `run` left. -/
theorem main_final (env : Env) : (main env).final = destructor (run env AOBench.new).state := by
  simp only [main]
  split <;> rfl

/-- What a guarded destroy emits. -/
theorem mem_emit (a c : Call) (slot : Option Nat) :
    a ∈ emit slot c ↔ slot.isSome = true ∧ a = c := by
  unfold emit
  split <;> simp_all

/-- The destructor makes only the device-idle wait and release calls. -/
theorem mem_destructorCalls (a : Call) (s : AOBench) (h : a ∈ destructorCalls s) :
    a = Call.vkDeviceWaitIdle ∨ a.destroys.isSome = true := by
  unfold destructorCalls at h
  split at h
  · simp only [List.mem_append, mem_emit, List.mem_singleton, List.mem_cons,
      List.not_mem_nil, or_false] at h
    rcases h with ((((((((((h | h) | h) | h) | h) | h) | h) | h) | h) | h) | h) | h
    all_goals first
      | (left; exact h)
      | (right; rw [h.2]; rfl)
      | (right; rw [h]; rfl)
  · simp only [List.nil_append, mem_emit] at h
    right; rw [h.2]; rfl

/-- The destructor writes no file. -/
theorem destructor_unwritten (s : AOBench) (h : s.Unwritten) : (destructor s).Unwritten := by
  unfold AOBench.Unwritten at h ⊢
  refine ⟨h.1, ?_⟩
  simp only [destructor]
  intro hmem
  rcases List.mem_append.1 hmem with h1 | h1
  · exact h.2 h1
  · have := mem_destructorCalls _ _ h1
    simp [Call.destroys] at this

/-- The stages up to and including `createShaderModule` leave the pipeline alone. -/
theorem early_stages_noPipeline (env : Env) (f : AOBench → Outcome)
    (hf : f ∈ [createInstance env, acquirePhysicalDevice env, findQueueFamily env,
      createDevice env, createBuffer env, createDescriptorSet env, createShaderModule env])
    (s : AOBench) (h : s.NoPipeline) : (f s).state.NoPipeline := by
  simp only [List.mem_cons, List.mem_singleton, List.not_mem_nil, or_false] at hf
  unfold AOBench.NoPipeline at h ⊢
  rcases hf with rfl | rfl | rfl | rfl | rfl | rfl | rfl
  · unfold createInstance; repeat' split
    all_goals simp_all [AOBench.call]
  · unfold acquirePhysicalDevice; repeat' split
    all_goals simp_all [AOBench.call]
  · unfold findQueueFamily; repeat' split
    all_goals simp_all [AOBench.call]
  · unfold createDevice; repeat' split
    all_goals simp_all [AOBench.call]
  · unfold createBuffer; repeat' split
    all_goals simp_all [AOBench.call]
  · unfold createDescriptorSet; repeat' split
    all_goals simp_all [AOBench.call]
  · unfold createShaderModule; repeat' split
    all_goals simp_all [AOBench.call]

/-- The destructor creates no pipeline. -/
theorem destructor_noPipeline (s : AOBench) (h : s.NoPipeline) : (destructor s).NoPipeline := by
  unfold AOBench.NoPipeline at h ⊢
  refine ⟨h.1, h.2.1, ?_, ?_⟩
  · simp only [destructor]
    intro hmem
    rcases List.mem_append.1 hmem with h1 | h1
    · exact h.2.2.1 h1
    · have := mem_destructorCalls _ _ h1
      simp [Call.destroys] at this
  · simp only [destructor]
    intro hmem
    rcases List.mem_append.1 hmem with h1 | h1
    · exact h.2.2.2 h1
    · have := mem_destructorCalls _ _ h1
      simp [Call.destroys] at this

/-- With `comp.spv` missing, `run` throws and the pipeline is never touched. -/
theorem run_without_shader (env : Env) (hfile : env.shaderFile = none) :
    (run env AOBench.new).thrown ≠ none ∧ (run env AOBench.new).state.NoPipeline ∧
      ((runFirst env 6).thrown = none →
        (run env AOBench.new).thrown = some "could not open shader binary") := by
  have hsplit : stages env =
      [createInstance env, acquirePhysicalDevice env, findQueueFamily env, createDevice env,
        createBuffer env, createDescriptorSet env] ++
      (createShaderModule env :: [createPipeline env, createCommandBuffer env,
        submitCommandBuffer env, saveImage env]) := rfl
  have hpre : runFirst env 6 =
      runStages [createInstance env, acquirePhysicalDevice env, findQueueFamily env,
        createDevice env, createBuffer env, createDescriptorSet env] AOBench.new := rfl
  have hnew : AOBench.new.NoPipeline := by simp [AOBench.NoPipeline, AOBench.new]
  have h6 : (runFirst env 6).state.NoPipeline := by
    rw [hpre]
    refine runStages_preserves _ _ (fun f hf => ?_) _ hnew
    refine early_stages_noPipeline env f ?_
    simp only [List.mem_cons, List.mem_singleton, List.not_mem_nil, or_false] at hf ⊢
    tauto
  have hcsm : ∀ s, (createShaderModule env s).thrown = some "could not open shader binary" := by
    intro s; simp [createShaderModule, hfile]
  unfold run
  rw [hsplit, runStages_append, ← hpre]
  cases hp : (runFirst env 6).thrown with
  | some m => simp [hp, h6]
  | none =>
    simp only [runStages, hcsm]
    refine ⟨by simp, ?_, by simp⟩
    exact early_stages_noPipeline env _ (by simp) _ h6

/-- C6. The exit code is `0` exactly when every stage, started in the state
its predecessors leave, returns without throwing. When the stages before
stage `k` return and stage `k` throws `msg`, the run ends as that stage left
it (no later stage is executed), the exit code is `1`, the error stream
receives `msg`, and `ao.ppm` is not written. When `comp.spv` cannot be
opened the process fails, no pipeline layout or pipeline is created or
attempted, no file is written, and if the six stages before
`createShaderModule` return, the message is "could not open shader binary". -/
theorem main_exit_code_and_first_failure (env : Env) :
    ((main env).exitCode = 0 ↔
      ∀ (k : Nat) (f : AOBench → Outcome), (stages env)[k]? = some f →
        (f (runFirst env k).state).thrown = none) ∧
    (∀ (k : Nat) (f : AOBench → Outcome) (msg : String), (stages env)[k]? = some f →
      (runFirst env k).thrown = none → (f (runFirst env k).state).thrown = some msg →
      run env AOBench.new = ⟨(f (runFirst env k).state).state, some msg⟩ ∧
        (main env).exitCode = 1 ∧ (main env).cerr = msg ++ "\n" ∧
        (main env).final.aoPpm = none ∧ Call.writeOutputFile ∉ (main env).final.trace) ∧
    (env.shaderFile = none →
      (main env).exitCode = 1 ∧ (main env).final.pipelineLayout = none ∧
        (main env).final.pipeline = none ∧
        Call.vkCreatePipelineLayout ∉ (main env).final.trace ∧
        Call.vkCreateComputePipelines ∉ (main env).final.trace ∧
        (main env).final.aoPpm = none ∧ Call.writeOutputFile ∉ (main env).final.trace ∧
        ((runFirst env 6).thrown = none →
          (main env).cerr = "could not open shader binary" ++ "\n")) := by
  refine ⟨?_, ?_, ?_⟩
  · rw [main_exitCode_eq_zero_iff]
    exact runStages_thrown_none_iff (stages env) AOBench.new
  · intro k f msg hk hpre hf
    have hrun := runStages_first_throw (stages env) AOBench.new k f msg hk hpre hf
    have hrun2 : run env AOBench.new = ⟨(f (runFirst env k).state).state, some msg⟩ := hrun
    have hthrown : (run env AOBench.new).thrown = some msg := by rw [hrun2]
    have hu := destructor_unwritten _ ((run_settled env).2.1 (by rw [hthrown]; simp))
    rw [← main_final] at hu
    refine ⟨hrun2, ?_, ?_, hu.1, hu.2⟩
    · simp [main, hthrown]
    · simp [main, hthrown]
  · intro hfile
    obtain ⟨hne, hnp, hmsg⟩ := run_without_shader env hfile
    have hu := destructor_unwritten _ ((run_settled env).2.1 hne)
    have hp := destructor_noPipeline _ hnp
    rw [← main_final] at hu hp
    refine ⟨?_, hp.1, hp.2.1, hp.2.2.1, hp.2.2.2, hu.1, hu.2, ?_⟩
    · cases h : (run env AOBench.new).thrown with
      | none => exact absurd h hne
      | some m => simp [main, h]
    · intro h6
      simp [main, hmsg h6]

/-- C6, at a concrete run: everything succeeds except that `comp.spv` is missing. -/
theorem main_exit_code_and_first_failure_witness :
    (main { Env.allSucceed with shaderFile := none }).exitCode = 1 ∧
      (main { Env.allSucceed with shaderFile := none }).cerr =
        "could not open shader binary" ++ "\n" ∧
      (main { Env.allSucceed with shaderFile := none }).final.aoPpm = none :=
  have h := (main_exit_code_and_first_failure { Env.allSucceed with shaderFile := none }).2.2 rfl
  ⟨h.1, h.2.2.2.2.2.2.2 (by decide), h.2.2.2.2.2.1⟩

/-! ### Teardown -/

/-- Filtering a list one element at a time. -/
theorem filter_cons_append {α : Type} (p : α → Bool) (a : α) (l : List α) :
    (a :: l).filter p = (if p a = true then [a] else []) ++ l.filter p := by
  rw [List.filter_cons]
  split <;> simp

/-- The resource released by a guarded destroy. -/
theorem destroyedOrder_emit (slot : Option Nat) (r : Resource) :
    destroyedOrder (emit slot r.destroyCall) = if slot.isSome = true then [r] else [] := by
  unfold emit destroyedOrder
  split
  · cases r <;> rfl
  · rfl

/-- Release calls in a concatenation. -/
theorem destroyedOrder_append (l1 l2 : List Call) :
    destroyedOrder (l1 ++ l2) = destroyedOrder l1 ++ destroyedOrder l2 := by
  unfold destroyedOrder
  exact List.filterMap_append l1 l2 Call.destroys

/-- On staged handles the destructor releases the held resources, each once,
in the order in which it visits them. -/
theorem destroyedOrder_destructorCalls (s : AOBench) (h : s.Staged) :
    destroyedOrder (destructorCalls s) =
      teardownOrder.filter (fun r => (s.slot r).isSome) := by
  have e1 : Call.vkDestroyFence = Resource.fence.destroyCall := rfl
  have e2 : Call.vkDestroyCommandPool = Resource.commandPool.destroyCall := rfl
  have e3 : Call.vkDestroyPipeline = Resource.pipeline.destroyCall := rfl
  have e4 : Call.vkDestroyPipelineLayout = Resource.pipelineLayout.destroyCall := rfl
  have e5 : Call.vkDestroyShaderModule = Resource.shaderModule.destroyCall := rfl
  have e6 : Call.vkDestroyDescriptorSetLayout = Resource.descriptorSetLayout.destroyCall := rfl
  have e7 : Call.vkDestroyDescriptorPool = Resource.descriptorPool.destroyCall := rfl
  have e8 : Call.vkFreeMemory = Resource.memory.destroyCall := rfl
  have e9 : Call.vkDestroyBuffer = Resource.buffer.destroyCall := rfl
  have e10 : Call.vkDestroyInstance = Resource.instance_.destroyCall := rfl
  have hw : destroyedOrder [Call.vkDeviceWaitIdle] = [] := rfl
  have hd : destroyedOrder [Call.vkDestroyDevice] = [Resource.device] := rfl
  have hn : destroyedOrder [] = [] := rfl
  unfold destructorCalls teardownOrder
  rw [e1, e2, e3, e4, e5, e6, e7, e8, e9, e10]
  simp only [filter_cons_append, List.filter_nil, AOBench.slot]
  rcases h with ⟨hi, hdv, hc⟩ | ⟨hi, hdv, hc⟩ | ⟨hi, hdv⟩
  · simp only [AOBench.noDeviceChildren, forall_resource, AOBench.slot,
      Resource.deviceOwned] at hc
    simp [hi, hdv, hc, destroyedOrder_emit, destroyedOrder_append, hn]
  · simp only [AOBench.noDeviceChildren, forall_resource, AOBench.slot,
      Resource.deviceOwned] at hc
    simp [hi, hdv, hc, destroyedOrder_emit, destroyedOrder_append, hn]
  · simp only [hdv, if_true, destroyedOrder_append, destroyedOrder_emit, hw, hd,
      List.append_nil, List.nil_append, List.append_assoc]

/-- Every resource is visited by the destructor, once. -/
theorem teardownOrder_nodup : teardownOrder.Nodup := by decide

/-- Every resource is visited by the destructor. -/
theorem mem_teardownOrder (r : Resource) : r ∈ teardownOrder := by
  cases r <;> decide

/-- Holding a resource created from the device means holding the device. -/
theorem AOBench.Staged.device_of_child (s : AOBench) (h : s.Staged) (r : Resource)
    (hr : r.deviceOwned = true) (hs : (s.slot r).isSome = true) :
    s.instance_.isSome = true ∧ s.device.isSome = true := by
  rcases h with ⟨_, _, hc⟩ | ⟨_, _, hc⟩ | ⟨hi, hdv⟩
  · rw [hc r hr] at hs; simp at hs
  · rw [hc r hr] at hs; simp at hs
  · exact ⟨hi, hdv⟩

/-- C10. Teardown releases exactly what was created, wherever the run
stopped. On either path `main` runs the destructor on what `run` left. For
every environment, hence for a failure at any stage and for success: each
resource whose handle is held is released exactly once and a resource whose
handle is empty is never released; the device is released after every held
resource created from it; the release of the instance is the last call, and
when no instance is held the destructor makes no call at all. -/
theorem teardown_releases_exactly_what_is_held (env : Env) :
    (main env).final = destructor (run env AOBench.new).state ∧
    (∀ r, (destroyedOrder (destructorCalls (run env AOBench.new).state)).count r =
      if ((run env AOBench.new).state.slot r).isSome = true then 1 else 0) ∧
    (∀ r, r.deviceOwned = true → ((run env AOBench.new).state.slot r).isSome = true →
      List.Sublist [r, Resource.device]
        (destroyedOrder (destructorCalls (run env AOBench.new).state))) ∧
    ((run env AOBench.new).state.instance_.isSome = true →
      (destructorCalls (run env AOBench.new).state).getLast? = some Call.vkDestroyInstance) ∧
    ((run env AOBench.new).state.instance_ = none →
      destructorCalls (run env AOBench.new).state = []) := by
  have hst := (run_settled env).1
  have hord := destroyedOrder_destructorCalls _ hst
  refine ⟨main_final env, ?_, ?_, ?_, ?_⟩
  · intro r
    rw [hord, List.count_eq_of_nodup (teardownOrder_nodup.filter _)]
    simp [List.mem_filter, mem_teardownOrder]
  · intro r hr hs
    obtain ⟨_, hdv⟩ := hst.device_of_child _ r hr hs
    rw [hord]
    have hsub : List.Sublist [r, Resource.device] teardownOrder := by
      cases r <;> first | (simp [Resource.deviceOwned] at hr; done) | decide
    have := hsub.filter (fun r => ((run env AOBench.new).state.slot r).isSome)
    have h2 : ((run env AOBench.new).state.slot Resource.device).isSome = true := hdv
    have hflt : [r, Resource.device].filter
        (fun r => ((run env AOBench.new).state.slot r).isSome) = [r, Resource.device] := by
      simp only [List.filter_cons, hs, h2, if_true, List.filter_nil]
    rw [hflt] at this
    exact this
  · intro hi
    unfold destructorCalls
    simp [emit, hi]
  · intro hi
    rcases hst with ⟨_, hdv, _⟩ | ⟨hi2, _, _⟩ | ⟨hi2, _⟩
    · simp [destructorCalls, emit, hi, hdv]
    · rw [hi] at hi2; simp at hi2
    · rw [hi] at hi2; simp at hi2

/-- C10, at a concrete run that fails while allocating the memory: buffer,
device and instance are released, in that order, and nothing else. -/
theorem teardown_releases_exactly_what_is_held_witness :
    ((run { Env.allSucceed with vkAllocateMemory := none } AOBench.new).state.slot
        Resource.buffer).isSome = true ∧
      List.Sublist [Resource.buffer, Resource.device]
        (destroyedOrder (destructorCalls
          (run { Env.allSucceed with vkAllocateMemory := none } AOBench.new).state)) ∧
      (destructorCalls
        (run { Env.allSucceed with vkAllocateMemory := none } AOBench.new).state).getLast? =
          some Call.vkDestroyInstance :=
  ⟨by decide,
    (teardown_releases_exactly_what_is_held
      { Env.allSucceed with vkAllocateMemory := none }).2.2.1 Resource.buffer rfl (by decide),
    (teardown_releases_exactly_what_is_held
      { Env.allSucceed with vkAllocateMemory := none }).2.2.2.1 (by decide)⟩

/-- C8, as claimed, fails: after a successful run the buffer and its memory
are both held, and the destructor does not destroy the buffer before it
frees the memory. -/
theorem destructor_buffer_before_memory_counterexample :
    (run Env.allSucceed AOBench.new).state.buffer.isSome = true ∧
      (run Env.allSucceed AOBench.new).state.memory.isSome = true ∧
      ¬ List.Sublist [Call.vkDestroyBuffer, Call.vkFreeMemory]
        (destructorCalls (run Env.allSucceed AOBench.new).state) := by
  decide

/-- C8, amended. In the state any run leaves, whenever the buffer and its
memory are both held, the destructor waits for the device to be idle, then
frees the memory, then destroys the buffer. -/
theorem destructor_memory_then_buffer (env : Env)
    (hb : (run env AOBench.new).state.buffer.isSome = true)
    (hm : (run env AOBench.new).state.memory.isSome = true) :
    List.Sublist [Call.vkDeviceWaitIdle, Call.vkFreeMemory, Call.vkDestroyBuffer]
      (destructorCalls (run env AOBench.new).state) := by
  have hst := (run_settled env).1
  obtain ⟨_, hdv⟩ := hst.device_of_child _ Resource.buffer rfl hb
  unfold destructorCalls
  rw [if_pos hdv]
  have e1 : emit (run env AOBench.new).state.memory Call.vkFreeMemory = [Call.vkFreeMemory] := by
    simp [emit, hm]
  have e2 : emit (run env AOBench.new).state.buffer Call.vkDestroyBuffer =
      [Call.vkDestroyBuffer] := by
    simp [emit, hb]
  rw [e1, e2]
  simp only [List.append_assoc, List.singleton_append, List.cons_append, List.nil_append]
  refine List.cons_sublist_cons.2 ?_
  repeat' apply List.sublist_append_of_sublist_right
  exact List.cons_sublist_cons.2 (List.cons_sublist_cons.2 (List.nil_sublist _))

/-- C8 amended, at the successful run. -/
theorem destructor_memory_then_buffer_witness :
    List.Sublist [Call.vkDeviceWaitIdle, Call.vkFreeMemory, Call.vkDestroyBuffer]
      (destructorCalls (run Env.allSucceed AOBench.new).state) :=
  destructor_memory_then_buffer Env.allSucceed (by decide) (by decide)

/-- C9, as claimed, fails: after the successful run the release order is not
the reverse of the creation order. -/
theorem teardown_reverse_of_creation_counterexample :
    (run Env.allSucceed AOBench.new).thrown = none ∧
      destroyedOrder (destructorCalls (run Env.allSucceed AOBench.new).state) ≠
        (createdOrder (run Env.allSucceed AOBench.new).state.trace).reverse := by
  decide

/-- C9, amended. After a run that does not throw, the resources were created
in the order instance, device, buffer, memory, descriptor-set layout,
descriptor pool, shader module, pipeline layout, pipeline, command pool,
fence; the destructor releases them in the reverse of the order of the
constructor's initialiser list, which is the reverse of the creation order
except that the descriptor-set layout is released before the descriptor
pool; and the first call of the destructor is the device-idle wait. -/
theorem teardown_order_after_success (env : Env)
    (hok : (run env AOBench.new).thrown = none) :
    createdOrder (run env AOBench.new).state.trace = creationOrder ∧
    destroyedOrder (destructorCalls (run env AOBench.new).state) = initialiserOrder.reverse ∧
    initialiserOrder.reverse =
      [Resource.fence, Resource.commandPool, Resource.pipeline, Resource.pipelineLayout,
        Resource.shaderModule, Resource.descriptorSetLayout, Resource.descriptorPool,
        Resource.memory, Resource.buffer, Resource.device, Resource.instance_] ∧
    creationOrder.reverse =
      [Resource.fence, Resource.commandPool, Resource.pipeline, Resource.pipelineLayout,
        Resource.shaderModule, Resource.descriptorPool, Resource.descriptorSetLayout,
        Resource.memory, Resource.buffer, Resource.device, Resource.instance_] ∧
    (destructorCalls (run env AOBench.new).state).head? = some Call.vkDeviceWaitIdle := by
  obtain ⟨hst, _, hall⟩ := run_settled env
  obtain ⟨hc, hs⟩ := hall hok
  refine ⟨hc, ?_, rfl, rfl, ?_⟩
  · rw [destroyedOrder_destructorCalls _ hst]
    simp [hs, teardownOrder, initialiserOrder]
  · have hdv := hs Resource.device
    simp only [AOBench.slot] at hdv
    simp [destructorCalls, hdv]

/-- C9 amended, at the successful run. -/
theorem teardown_order_after_success_witness :
    createdOrder (run Env.allSucceed AOBench.new).state.trace = creationOrder ∧
      destroyedOrder (destructorCalls (run Env.allSucceed AOBench.new).state) =
        initialiserOrder.reverse :=
  have h := teardown_order_after_success Env.allSucceed (by decide)
  ⟨h.1, h.2.1⟩

/-! ### Binary digits and rounding -/

/-- With enough fuel, a positive number lies between the powers of two
around its digit count. -/
theorem bitLenAux_spec (fuel n : Nat) (hf : n ≤ fuel) (hn : 0 < n) :
    1 ≤ bitLenAux fuel n ∧ 2 ^ (bitLenAux fuel n - 1) ≤ n ∧ n < 2 ^ bitLenAux fuel n := by
  induction fuel generalizing n with
  | zero => omega
  | succ fuel ih =>
    have hne : n ≠ 0 := by omega
    rw [bitLenAux, if_neg hne]
    by_cases h2 : n / 2 = 0
    · have h1 : n = 1 := by omega
      subst h1
      cases fuel <;> simp [bitLenAux]
    · have hpos : 0 < n / 2 := Nat.pos_of_ne_zero h2
      obtain ⟨hb1, hlo, hhi⟩ := ih (n / 2) (by omega) hpos
      refine ⟨by omega, ?_, ?_⟩
      · have e : bitLenAux fuel (n / 2) + 1 - 1 = (bitLenAux fuel (n / 2) - 1) + 1 := by omega
        rw [e, pow_succ]
        omega
      · rw [pow_succ]
        omega

/-- A number is below two to its digit count. -/
theorem lt_two_pow_bitLen (n : Nat) : n < 2 ^ bitLen n := by
  rcases Nat.eq_zero_or_pos n with h | h
  · subst h; simp
  · exact (bitLenAux_spec n n (le_refl n) h).2.2

/-- A positive number is at least two to its digit count less one. -/
theorem two_pow_bitLen_le (n : Nat) (hn : 0 < n) : 2 ^ (bitLen n - 1) ≤ n :=
  (bitLenAux_spec n n (le_refl n) hn).2.1

/-- A positive number has at least one digit. -/
theorem one_le_bitLen (n : Nat) (hn : 0 < n) : 1 ≤ bitLen n :=
  (bitLenAux_spec n n (le_refl n) hn).1

/-- A number below `2 ^ k` has at most `k` digits. -/
theorem bitLen_le_of_lt (n k : Nat) (h : n < 2 ^ k) : bitLen n ≤ k := by
  rcases Nat.eq_zero_or_pos n with h0 | h0
  · subst h0
    have : bitLen 0 = 0 := by cases h1 : bitLen 0 with
      | zero => rfl
      | succ b => simp [bitLen, bitLenAux] at h1
    omega
  · by_contra hc
    have h1 := two_pow_bitLen_le n h0
    have h2 : 2 ^ k ≤ 2 ^ (bitLen n - 1) := Nat.pow_le_pow_right (by norm_num) (by omega)
    omega

/-- A number from `2 ^ k` on has more than `k` digits. -/
theorem lt_bitLen_of_le (n k : Nat) (h : 2 ^ k ≤ n) : k < bitLen n := by
  by_contra hc
  have h1 := lt_two_pow_bitLen n
  have h2 : 2 ^ bitLen n ≤ 2 ^ k := Nat.pow_le_pow_right (by norm_num) (by omega)
  omega

/-- The digit count of a number between consecutive powers of two. -/
theorem bitLen_eq (n k : Nat) (hlo : 2 ^ k ≤ n) (hhi : n < 2 ^ (k + 1)) : bitLen n = k + 1 := by
  have h1 := lt_bitLen_of_le n k hlo
  have h2 := bitLen_le_of_lt n (k + 1) hhi
  omega

/-- Rounding is the quotient or the next integer, the latter only from half on. -/
theorem roundNearestEven_cases (num den : Nat) :
    roundNearestEven num den = num / den ∨
      (roundNearestEven num den = num / den + 1 ∧ den ≤ 2 * (num % den)) := by
  unfold roundNearestEven
  simp only []
  split
  · left; rfl
  · split
    · right; exact ⟨rfl, by omega⟩
    · split
      · left; rfl
      · right; exact ⟨rfl, by omega⟩

/-- Rounding does not go below the quotient. -/
theorem div_le_roundNearestEven (num den : Nat) : num / den ≤ roundNearestEven num den := by
  rcases roundNearestEven_cases num den with h | h
  · omega
  · omega

/-- An exact quotient is not changed by rounding. -/
theorem roundNearestEven_exact (num den : Nat) (hden : 0 < den) (h : num % den = 0) :
    roundNearestEven num den = num / den := by
  unfold roundNearestEven
  simp only []
  rw [h]
  simp [hden]

/-- Rounding a multiple. -/
theorem roundNearestEven_mul (k den : Nat) (hden : 0 < den) :
    roundNearestEven (k * den) den = k := by
  rw [roundNearestEven_exact _ _ hden (Nat.mul_mod_left k den)]
  exact Nat.mul_div_cancel k hden

/-- A quotient not above an integer does not round above it. -/
theorem roundNearestEven_le (num den K : Nat) (hden : 0 < den) (h : num ≤ K * den) :
    roundNearestEven num den ≤ K := by
  have hq : num / den ≤ K := Nat.div_le_of_le_mul (by rw [Nat.mul_comm]; exact h)
  rcases roundNearestEven_cases num den with h1 | ⟨h1, h2⟩
  · omega
  · rw [h1]
    by_contra hc
    have hqK : num / den = K := by omega
    have hdm := Nat.div_add_mod num den
    rw [hqK] at hdm
    have hmod : num % den = 0 := by
      have : den * K + num % den ≤ K * den := by rw [hdm]; exact h
      rw [Nat.mul_comm] at this
      omega
    omega

/-- A quotient more than half above an integer rounds above it. -/
theorem lt_roundNearestEven (num den K : Nat) (hden : 0 < den)
    (h : (2 * K + 1) * den < 2 * num) : K < roundNearestEven num den := by
  have hKq : K ≤ num / den := by
    rw [Nat.le_div_iff_mul_le hden]
    nlinarith
  rcases Nat.lt_or_ge K (num / den) with hlt | hge
  · exact lt_of_lt_of_le hlt (div_le_roundNearestEven num den)
  · have hqK : num / den = K := by omega
    have hdm := Nat.div_add_mod num den
    rw [hqK] at hdm
    have hhalf : den < 2 * (num % den) := by
      have e : 2 * num = 2 * (den * K) + 2 * (num % den) := by omega
      rw [e] at h
      have e2 : (2 * K + 1) * den = 2 * (den * K) + den := by ring
      rw [e2] at h
      omega
    unfold roundNearestEven
    simp only []
    rw [if_neg (by omega), if_pos hhalf, hqK]
    omega

/-- Rounding depends on the quotient only. -/
theorem roundNearestEven_scale (k num den : Nat) (hk : 0 < k) :
    roundNearestEven (k * num) (k * den) = roundNearestEven num den := by
  unfold roundNearestEven
  simp only []
  rw [Nat.mul_div_mul_left _ _ hk, Nat.mul_mod_mul_left]
  have e1 : 2 * (k * (num % den)) < k * den ↔ 2 * (num % den) < den := by
    rw [show 2 * (k * (num % den)) = k * (2 * (num % den)) by ring]
    exact Nat.mul_lt_mul_left hk
  have e2 : k * den < 2 * (k * (num % den)) ↔ den < 2 * (num % den) := by
    rw [show 2 * (k * (num % den)) = k * (2 * (num % den)) by ring]
    exact Nat.mul_lt_mul_left hk
  simp only [e1, e2]

/-! ### The pixel conversion -/

/-- Digits of a number shifted left. -/
theorem bitLen_mul_two_pow (n k : Nat) (hn : 0 < n) : bitLen (n * 2 ^ k) = bitLen n + k := by
  have h1 := two_pow_bitLen_le n hn
  have h2 := lt_two_pow_bitLen n
  have h3 := one_le_bitLen n hn
  have hk : 0 < 2 ^ k := Nat.pow_pos (by norm_num)
  have e : bitLen n + k = (bitLen n - 1 + k) + 1 := by omega
  rw [e]
  apply bitLen_eq
  · rw [pow_add]
    exact Nat.mul_le_mul_right _ h1
  · rw [← e, pow_add]
    exact Nat.mul_lt_mul_of_pos_right h2 hk

/-- The heart of the conversion: a product `255 * m` with a 24-bit `m`, cut
to 24 bits by dropping `s0` bits, is never rounded up onto a number whose low
`t ≥ 16` bits are all zero. In the terms of the program: `255 * c` is never
rounded up to the next integer. -/
theorem no_round_up_to_integer (m s0 t : Nat) (hm : m < 2 ^ 24) (hs1 : 1 ≤ s0)
    (hs8 : s0 ≤ 8) (ht : 16 ≤ t) (hlo : 2 ^ (23 + s0) ≤ 255 * m)
    (hhi : 255 * m < 2 ^ (24 + s0)) (hhalf : 2 ^ s0 ≤ 2 * (255 * m % 2 ^ s0)) :
    ¬ 2 ^ t ∣ 255 * m / 2 ^ s0 + 1 := by
  rintro ⟨j, hj⟩
  have hspos : 0 < 2 ^ s0 := Nat.pow_pos (by norm_num)
  have hrem : 255 * m % 2 ^ s0 < 2 ^ s0 := Nat.mod_lt _ hspos
  have hdm := Nat.div_add_mod (255 * m) (2 ^ s0)
  -- the distance `r` to the next multiple of `2 ^ s0`, and the scale `w`
  obtain ⟨r, hr⟩ : ∃ r, r = 2 ^ s0 - 255 * m % 2 ^ s0 := ⟨_, rfl⟩
  obtain ⟨w, hw⟩ : ∃ w, w = 2 ^ (8 - s0) := ⟨_, rfl⟩
  have hw1 : 1 ≤ w := by rw [hw]; exact Nat.pow_pos (by norm_num)
  have hsw : 2 ^ s0 * w = 256 := by
    rw [hw, ← pow_add, show s0 + (8 - s0) = 8 by omega]; norm_num
  have ht16 : (2 : Nat) ^ t = 2 ^ 16 * 2 ^ (t - 16) := by
    rw [← pow_add, show 16 + (t - 16) = t by omega]
  -- `255 * m + r = 2 ^ s0 * (j * 2 ^ t)`
  have hsum : 255 * m + r = 2 ^ s0 * (2 ^ t * j) := by
    rw [← hj, Nat.mul_add, Nat.mul_one]
    omega
  have hr1 : 1 ≤ r := by omega
  have hr2 : 2 * r ≤ 2 ^ s0 := by omega
  -- scale everything by `w`
  have hscaled : 255 * (m * w) + r * w = 16777216 * (2 ^ (t - 16) * j) := by
    have h1 : (255 * m + r) * w = 2 ^ s0 * (2 ^ t * j) * w := by rw [hsum]
    have h2 : 2 ^ s0 * (2 ^ t * j) * w = (2 ^ s0 * w) * (2 ^ 16 * (2 ^ (t - 16) * j)) := by
      rw [ht16]; ring
    rw [h2, hsw] at h1
    have h3 : (255 * m + r) * w = 255 * (m * w) + r * w := by ring
    rw [h3] at h1
    rw [h1]
    norm_num
    ring
  have hrw_le : 2 * (r * w) ≤ 256 := by
    calc 2 * (r * w) = (2 * r) * w := by ring
      _ ≤ 2 ^ s0 * w := Nat.mul_le_mul_right _ hr2
      _ = 256 := hsw
  have hrw_pos : 1 ≤ r * w := Nat.mul_pos hr1 hw1
  have hlo_w : 2147483648 ≤ 255 * (m * w) := by
    have h1 : 2 ^ (23 + s0) * w ≤ 255 * m * w := Nat.mul_le_mul_right _ hlo
    have h2 : 2 ^ (23 + s0) * w = 2147483648 := by
      rw [pow_add, Nat.mul_assoc, hsw]; norm_num
    rw [h2] at h1
    calc 2147483648 ≤ 255 * m * w := h1
      _ = 255 * (m * w) := by ring
  have hhi_w : 255 * (m * w) < 4294967296 := by
    have h1 : 255 * m * w < 2 ^ (24 + s0) * w := Nat.mul_lt_mul_of_pos_right hhi hw1
    have h2 : 2 ^ (24 + s0) * w = 4294967296 := by
      rw [pow_add, Nat.mul_assoc, hsw]; norm_num
    rw [h2] at h1
    calc 255 * (m * w) = 255 * m * w := by ring
      _ < 4294967296 := h1
  -- now it is linear arithmetic in `m * w`, `r * w` and the quotient
  have hK : 129 ≤ 2 ^ (t - 16) * j ∧ 2 ^ (t - 16) * j ≤ 256 := by omega
  obtain ⟨K, hKdef⟩ : ∃ K, K = 2 ^ (t - 16) * j := ⟨_, rfl⟩
  obtain ⟨mw, hmw⟩ : ∃ mw, mw = m * w := ⟨_, rfl⟩
  obtain ⟨rw_, hrw⟩ : ∃ rw_, rw_ = r * w := ⟨_, rfl⟩
  rw [← hKdef] at hK hscaled
  rw [← hmw] at hscaled hlo_w hhi_w
  rw [← hrw] at hscaled hrw_le hrw_pos
  have hm1 : (255 * mw + rw_) % 255 = rw_ % 255 := by omega
  have hm2 : (16777216 * K) % 255 = K % 255 := by omega
  have hm3 : rw_ % 255 = K % 255 := by rw [← hm1, ← hm2, hscaled]
  have hK256 : K = 256 := by
    clear hscaled hhi_w hlo_w hhalf hhi hlo hj hdm hsum hm1 hm2 hsw ht16 hr hrem hr2 hKdef
    omega
  have hrw1 : rw_ = 1 := by
    rw [hK256] at hm3
    clear hscaled hhi_w hlo_w hhalf hhi hlo hj hdm hsum hm1 hm2 hsw ht16 hr hrem hr2 hKdef
    omega
  have hmw1 : mw = 16843009 := by
    rw [hK256, hrw1] at hscaled
    clear hhi_w hlo_w hhalf hhi hlo hj hdm hsum hm1 hm2 hm3 hsw ht16 hr hrem hr2 hKdef
    omega
  have hone : r * w = 1 ∧ m * w = 16843009 := by
    rw [← hrw, ← hmw]; exact ⟨hrw1, hmw1⟩
  have hw_one : w = 1 := by
    have := Nat.eq_one_of_mul_eq_one_left hone.1
    exact this
  rw [hw_one, Nat.mul_one] at hone
  have : (2 : Nat) ^ 24 = 16777216 := by norm_num
  omega

/-- Rounded to 24 bits and truncated to an integer, `255 * c` for a float
`c = m * 2 ^ sc * 2 ^ -149` in `[0, 1]` is the integer part of the exact
product. -/
theorem round_255_floor (m sc : Nat) (hm : m < 2 ^ 24) (hU : m * 2 ^ sc ≤ 2 ^ 149) :
    roundNearestEven (255 * (m * 2 ^ sc)) (2 ^ (bitLen (255 * (m * 2 ^ sc)) - 24)) *
        2 ^ (bitLen (255 * (m * 2 ^ sc)) - 24) / 2 ^ 149 =
      255 * (m * 2 ^ sc) / 2 ^ 149 := by
  rcases Nat.eq_zero_or_pos m with hm0 | hmpos
  · subst hm0
    simp [roundNearestEven]
  have hP0pos : 0 < 255 * m := by omega
  have hPeq : 255 * (m * 2 ^ sc) = 255 * m * 2 ^ sc := by ring
  have hbl : bitLen (255 * (m * 2 ^ sc)) = bitLen (255 * m) + sc := by
    rw [hPeq]; exact bitLen_mul_two_pow _ _ hP0pos
  have hlo := two_pow_bitLen_le (255 * m) hP0pos
  have hhi := lt_two_pow_bitLen (255 * m)
  have hscpos : 0 < 2 ^ sc := Nat.pow_pos (by norm_num)
  rw [hbl]
  rcases Nat.lt_or_ge 24 (bitLen (255 * m)) with hb | hb
  rotate_left
  · -- nothing is rounded away
    have hs : bitLen (255 * m) + sc - 24 ≤ sc := by omega
    have hmul : 255 * (m * 2 ^ sc) =
        (255 * m * 2 ^ (sc - (bitLen (255 * m) + sc - 24))) *
          2 ^ (bitLen (255 * m) + sc - 24) := by
      rw [Nat.mul_assoc, ← pow_add, Nat.sub_add_cancel hs, hPeq]
    have hpos : 0 < 2 ^ (bitLen (255 * m) + sc - 24) := Nat.pow_pos (by norm_num)
    conv_lhs => rw [hmul, roundNearestEven_mul _ _ hpos]
    rw [← hmul]
  · -- `s0` bits of `255 * m` are rounded away
    obtain ⟨s0, hs0⟩ : ∃ s0, bitLen (255 * m) = 24 + s0 := ⟨bitLen (255 * m) - 24, by omega⟩
    have hs1 : 1 ≤ s0 := by omega
    have hlo2 : 2 ^ (23 + s0) ≤ 255 * m := by
      have : bitLen (255 * m) - 1 = 23 + s0 := by omega
      rw [this] at hlo; exact hlo
    have hhi2 : 255 * m < 2 ^ (24 + s0) := by rw [hs0] at hhi; exact hhi
    have hs8 : s0 ≤ 8 := by
      by_contra hc
      have h1 : (2 : Nat) ^ (23 + 9) ≤ 2 ^ (23 + s0) :=
        Nat.pow_le_pow_right (by norm_num) (by omega)
      have h2 : (2 : Nat) ^ (23 + 9) = 4294967296 := by norm_num
      have h3 : (2 : Nat) ^ 24 = 16777216 := by norm_num
      omega
    -- the exponent leaves at least 16 bits below the integers
    have hsum : s0 + sc + 16 ≤ 149 := by
      by_contra hc
      have h1 : 2 ^ (23 + s0) * 2 ^ sc ≤ 255 * m * 2 ^ sc := Nat.mul_le_mul_right _ hlo2
      have h2 : (2 : Nat) ^ (23 + s0) * 2 ^ sc = 2 ^ (23 + s0 + sc) := by rw [← pow_add]
      have h3 : (2 : Nat) ^ 157 ≤ 2 ^ (23 + s0 + sc) :=
        Nat.pow_le_pow_right (by norm_num) (by omega)
      have h4 : 255 * m * 2 ^ sc ≤ 255 * 2 ^ 149 := by
        rw [Nat.mul_assoc]; exact Nat.mul_le_mul_left _ hU
      have h5 : 255 * 2 ^ 149 < (2 : Nat) ^ 157 := by norm_num
      omega
    obtain ⟨t, ht⟩ : ∃ t, 149 = s0 + sc + t := ⟨149 - (s0 + sc), by omega⟩
    have ht16 : 16 ≤ t := by omega
    have hs : bitLen (255 * m) + sc - 24 = s0 + sc := by omega
    rw [hs]
    have hsc : roundNearestEven (255 * (m * 2 ^ sc)) (2 ^ (s0 + sc)) =
        roundNearestEven (255 * m) (2 ^ s0) := by
      have e1 : 255 * (m * 2 ^ sc) = 2 ^ sc * (255 * m) := by ring
      have e2 : (2 : Nat) ^ (s0 + sc) = 2 ^ sc * 2 ^ s0 := by rw [pow_add]; ring
      rw [e1, e2]
      exact roundNearestEven_scale _ _ _ hscpos
    rw [hsc]
    have hpow : (2 : Nat) ^ 149 = 2 ^ (s0 + sc) * 2 ^ t := by rw [ht, pow_add]
    have hsspos : 0 < 2 ^ (s0 + sc) := Nat.pow_pos (by norm_num)
    have hL : roundNearestEven (255 * m) (2 ^ s0) * 2 ^ (s0 + sc) / 2 ^ 149 =
        roundNearestEven (255 * m) (2 ^ s0) / 2 ^ t := by
      rw [hpow, Nat.mul_comm _ (2 ^ (s0 + sc)), Nat.mul_div_mul_left _ _ hsspos]
    have hR : 255 * (m * 2 ^ sc) / 2 ^ 149 = 255 * m / 2 ^ s0 / 2 ^ t := by
      have e1 : 255 * (m * 2 ^ sc) = 2 ^ sc * (255 * m) := by ring
      have e2 : (2 : Nat) ^ 149 = 2 ^ sc * (2 ^ s0 * 2 ^ t) := by
        rw [ht, pow_add, pow_add]; ring
      rw [e1, e2, Nat.mul_div_mul_left _ _ hscpos, Nat.div_div_eq_div_mul]
    rw [hL, hR]
    rcases roundNearestEven_cases (255 * m) (2 ^ s0) with h | ⟨h, hhalf⟩
    · rw [h]
    · rw [h, Nat.succ_div]
      have := no_round_up_to_integer m s0 t hm hs1 hs8 ht16 hlo2 hhi2 hhalf
      rw [if_neg this]
      rfl

set_option maxRecDepth 100000 in
/-- The constant `255` converted to `float`. -/
theorem ofNat_255 : F32.ofNat 255 = ⟨16711680, 133⟩ := by decide

/-- The constant `255` as a float is exactly 255. -/
theorem ofNat_255_units : (F32.ofNat 255).units = 255 * F32.one := by
  rw [ofNat_255]
  decide

/-- The single-precision product `255 * c`. -/
theorem mul_255 (c : F32) :
    F32.mul (F32.ofNat 255) c =
      ⟨roundNearestEven (255 * c.units) (2 ^ (bitLen (255 * c.units) - 24)),
        bitLen (255 * c.units) - 24⟩ := by
  have hone : (2 : Nat) ^ 149 = F32.one := rfl
  have hpos : 0 < F32.one * F32.one := Nat.mul_pos (Nat.pow_pos (by norm_num))
    (Nat.pow_pos (by norm_num))
  unfold F32.mul F32.round
  simp only []
  rw [ofNat_255_units, hone]
  have e1 : 255 * F32.one * c.units * F32.one = F32.one * F32.one * (255 * c.units) := by ring
  rw [e1, Nat.mul_div_cancel_left _ hpos, roundNearestEven_scale _ _ _ hpos]

/-- The byte stored for a float `c` in `[0, 1]` is the integer part of `255 * c`. -/
theorem pixelByte_eq_floor (c : F32) (hm : c.m < 2 ^ 24) (hc : c.units ≤ F32.one) :
    pixelByte c = 255 * c.units / F32.one := by
  have hone : F32.one = 2 ^ 149 := rfl
  unfold pixelByte F32.toChar
  rw [mul_255]
  simp only [F32.units] at hc ⊢
  rw [hone] at hc ⊢
  rw [round_255_floor c.m c.s hm hc]
  apply Nat.mod_eq_of_lt
  have h1 : 255 * (c.m * 2 ^ c.s) ≤ 255 * 2 ^ 149 := Nat.mul_le_mul_left _ hc
  have h2 : 255 * (c.m * 2 ^ c.s) / 2 ^ 149 ≤ 255 :=
    Nat.div_le_of_le_mul (by rw [Nat.mul_comm (2 ^ 149) 255]; exact h1)
  omega

/-! ### The dispatch grid -/

/-- The round-up quotient lies within one divisor of the dividend. -/
theorem ceilDiv_bounds (n B : Nat) (hn : 1 ≤ n) (hB : 1 ≤ B) :
    1 ≤ (n + B - 1) / B ∧ ((n + B - 1) / B - 1) * B < n ∧ n ≤ (n + B - 1) / B * B := by
  have hdm := Nat.div_add_mod (n + B - 1) B
  have hmod := Nat.mod_lt (n + B - 1) hB
  have h1 : 1 ≤ (n + B - 1) / B := by
    rw [Nat.le_div_iff_mul_le hB]; omega
  obtain ⟨k, hk⟩ : ∃ k, (n + B - 1) / B = k + 1 := ⟨(n + B - 1) / B - 1, by omega⟩
  rw [hk] at hdm ⊢
  have e1 : B * (k + 1) = k * B + B := by ring
  have e2 : (k + 1) * B = k * B + B := by ring
  rw [e1] at hdm
  refine ⟨by omega, ?_, ?_⟩
  · rw [Nat.add_sub_cancel]; omega
  · rw [e2]; omega

/-- A number strictly above `(k - 1)` wholes and not above `k` wholes rounds
up to `k`. -/
theorem ceil_eq_of_bounds (y one k : Nat) (hone : 0 < one) (hk : 1 ≤ k)
    (hlo : (k - 1) * one < y) (hhi : y ≤ k * one) : (y + one - 1) / one = k := by
  obtain ⟨j, hj⟩ : ∃ j, k = j + 1 := ⟨k - 1, by omega⟩
  subst hj
  rw [Nat.add_sub_cancel] at hlo
  apply Nat.div_eq_of_lt_le
  · have e : (j + 1) * one = j * one + one := by ring
    rw [e]; omega
  · have e : (j + 1).succ * one = (j + 1) * one + one := by
      rw [Nat.succ_mul]
    rw [e]; omega

/-- The single-precision quotient of an integer `n ≤ 2 ^ 24` by an integer
`B`, rounded up to an integer, is the exact quotient rounded up. -/
theorem round_div_ceil (n B : Nat) (hn1 : 1 ≤ n) (hn : n ≤ 2 ^ 24) (hB1 : 1 ≤ B)
    (hB : B ≤ 2 ^ 126) :
    (roundNearestEven (n * 2 ^ 149) (B * 2 ^ (bitLen (n * 2 ^ 149 / B) - 24)) *
        2 ^ (bitLen (n * 2 ^ 149 / B) - 24) + 2 ^ 149 - 1) / 2 ^ 149 =
      (n + B - 1) / B := by
  obtain ⟨one, hone⟩ : ∃ o : Nat, o = 2 ^ 149 := ⟨_, rfl⟩
  have honepos : 0 < one := by rw [hone]; exact Nat.pow_pos (by norm_num)
  rw [← hone]
  -- the quotient in units has at least 24 bits
  have hXq : 2 ^ 23 ≤ n * one / B := by
    rw [Nat.le_div_iff_mul_le hB1]
    calc 2 ^ 23 * B ≤ 2 ^ 23 * 2 ^ 126 := Nat.mul_le_mul_left _ hB
      _ = one := by rw [hone, ← pow_add]
      _ ≤ n * one := Nat.le_mul_of_pos_left _ hn1
  have hb := lt_bitLen_of_le _ _ hXq
  obtain ⟨s, hs⟩ : ∃ s, bitLen (n * one / B) = 24 + s := ⟨bitLen (n * one / B) - 24, by omega⟩
  have hs2 : bitLen (n * one / B) - 24 = s := by omega
  rw [hs2]
  have hlo : 2 ^ (23 + s) ≤ n * one / B := by
    have := two_pow_bitLen_le (n * one / B) (by omega)
    rw [hs, show 24 + s - 1 = 23 + s by omega] at this
    exact this
  have hloB : 2 ^ 23 * (B * 2 ^ s) ≤ n * one := by
    have := (Nat.le_div_iff_mul_le hB1).1 hlo
    calc 2 ^ 23 * (B * 2 ^ s) = 2 ^ (23 + s) * B := by rw [pow_add]; ring
      _ ≤ n * one := this
  have hspos : 0 < 2 ^ s := Nat.pow_pos (by norm_num)
  have hDpos : 0 < B * 2 ^ s := Nat.mul_pos hB1 hspos
  obtain ⟨hk1, hklo, hkhi⟩ := ceilDiv_bounds n B hn1 hB1
  obtain ⟨k, hk⟩ : ∃ k, (n + B - 1) / B = k := ⟨_, rfl⟩
  rw [hk] at hk1 hklo hkhi ⊢
  -- name the pieces: `P2 = 2 ^ s`, `D` the divisor, `M` the rounded significand
  obtain ⟨P2, hP2⟩ : ∃ P2 : Nat, P2 = 2 ^ s := ⟨_, rfl⟩
  rw [← hP2] at hloB hspos hDpos ⊢
  have hkloOne : (k - 1) * B * one < n * one := Nat.mul_lt_mul_of_pos_right hklo honepos
  have hkhiOne : n * one ≤ k * B * one := Nat.mul_le_mul_right _ hkhi
  by_cases hex : n * one % (B * P2) = 0
  · -- the quotient is a float: nothing is rounded
    rw [roundNearestEven_exact _ _ hDpos hex]
    have hmul : n * one / (B * P2) * (B * P2) = n * one :=
      Nat.div_mul_cancel (Nat.dvd_of_mod_eq_zero hex)
    obtain ⟨Q, hQ⟩ : ∃ Q, Q = n * one / (B * P2) := ⟨_, rfl⟩
    rw [← hQ] at hmul ⊢
    have hyB : Q * P2 * B = n * one := by rw [← hmul]; ring
    apply ceil_eq_of_bounds _ _ _ honepos hk1
    · apply Nat.lt_of_mul_lt_mul_right (a := B)
      rw [hyB]
      calc (k - 1) * one * B = (k - 1) * B * one := by ring
        _ < n * one := hkloOne
    · apply Nat.le_of_mul_le_mul_right (c := B) _ hB1
      rw [hyB]
      calc n * one ≤ k * B * one := hkhiOne
        _ = k * one * B := by ring
  · -- the quotient is rounded
    have hne : 2 ^ 23 * (B * P2) ≠ n * one := by
      intro h
      apply hex
      rw [← h]
      exact Nat.mul_mod_left _ _
    have hlt : 2 ^ 23 * (B * P2) < n * one := lt_of_le_of_ne hloB hne
    have hnone : n * one ≤ 2 ^ 24 * one := Nat.mul_le_mul_right _ hn
    have hD2 : B * P2 < 2 * one := by
      have e23 : (2 : Nat) ^ 23 = 8388608 := by norm_num
      have e24 : (2 : Nat) ^ 24 = 16777216 := by norm_num
      rw [e23] at hlt
      rw [e24] at hnone
      omega
    have hP2lt : P2 < 2 ^ 150 := by
      have h1 : P2 ≤ B * P2 := Nat.le_mul_of_pos_left _ hB1
      have h2 : 2 * one = 2 ^ 150 := by rw [hone]; norm_num
      omega
    have hs149 : s ≤ 149 := by
      rw [hP2] at hP2lt
      have := (Nat.pow_lt_pow_iff_right (a := 2) (by norm_num)).1 hP2lt
      omega
    obtain ⟨Pu, hPu⟩ : ∃ Pu : Nat, Pu = 2 ^ (149 - s) := ⟨_, rfl⟩
    have hsplit : one = P2 * Pu := by
      rw [hone, hP2, hPu, ← pow_add, show s + (149 - s) = 149 by omega]
    obtain ⟨M, hM⟩ : ∃ M, M = roundNearestEven (n * one) (B * P2) := ⟨_, rfl⟩
    have hup : M ≤ k * Pu := by
      rw [hM]
      apply roundNearestEven_le _ _ _ hDpos
      calc n * one ≤ k * B * one := hkhiOne
        _ = k * Pu * (B * P2) := by rw [hsplit]; ring
    have hdown : (k - 1) * Pu < M := by
      rw [hM]
      apply lt_roundNearestEven _ _ _ hDpos
      have e1 : (2 * ((k - 1) * Pu) + 1) * (B * P2) = 2 * ((k - 1) * B * one) + B * P2 := by
        rw [hsplit]; ring
      rw [e1]
      have h3 : (k - 1) * B * one + one ≤ n * one := by
        have : (k - 1) * B + 1 ≤ n := hklo
        calc (k - 1) * B * one + one = ((k - 1) * B + 1) * one := by ring
          _ ≤ n * one := Nat.mul_le_mul_right _ this
      omega
    rw [← hM]
    apply ceil_eq_of_bounds _ _ _ honepos hk1
    · have h1 : ((k - 1) * Pu + 1) * P2 ≤ M * P2 := Nat.mul_le_mul_right _ hdown
      have e : ((k - 1) * Pu + 1) * P2 = (k - 1) * one + P2 := by rw [hsplit]; ring
      rw [e] at h1
      omega
    · calc M * P2 ≤ k * Pu * P2 := Nat.mul_le_mul_right _ hup
        _ = k * one := by rw [hsplit]; ring

/-- The conversion of an integer to `float`, unfolded. -/
theorem ofNat_eq (n : Nat) :
    F32.ofNat n =
      ⟨roundNearestEven (n * 2 ^ 149) (2 ^ (bitLen (n * 2 ^ 149) - 24)),
        bitLen (n * 2 ^ 149) - 24⟩ := by
  unfold F32.ofNat F32.round
  simp only [Nat.div_one, Nat.one_mul]

/-- An integer up to `2 ^ 24` is converted to `float` exactly. -/
theorem ofNat_units_exact (n : Nat) (hn : n ≤ 2 ^ 24) : (F32.ofNat n).units = n * F32.one := by
  have hone : F32.one = 2 ^ 149 := rfl
  rw [ofNat_eq, hone]
  simp only [F32.units]
  rcases Nat.eq_zero_or_pos n with h0 | hpos
  · subst h0; simp [roundNearestEven]
  rw [bitLen_mul_two_pow n 149 hpos]
  have hspos : 0 < 2 ^ (bitLen n + 149 - 24) := Nat.pow_pos (by norm_num)
  have hdvd : 2 ^ (bitLen n + 149 - 24) ∣ n * 2 ^ 149 := by
    rcases Nat.lt_or_ge n (2 ^ 24) with hlt | hge
    · have hb := bitLen_le_of_lt n 24 hlt
      exact Dvd.dvd.mul_left (Nat.pow_dvd_pow 2 (by omega)) n
    · have hn24 : n = 2 ^ 24 := by omega
      have hb : bitLen n = 25 := by
        rw [hn24]; exact bitLen_eq _ 24 (le_refl _) (by norm_num)
      rw [hb, hn24, ← pow_add]
      exact Nat.pow_dvd_pow 2 (by norm_num)
  rw [roundNearestEven_exact _ _ hspos (Nat.mod_eq_zero_of_dvd hdvd)]
  exact Nat.div_mul_cancel hdvd

/-- An integer above `2 ^ 24` is converted to a whole number of at least
`2 ^ 24` and at most twice the integer. -/
theorem ofNat_units_large (t : Nat) (ht : 2 ^ 24 < t) :
    ∃ B, (F32.ofNat t).units = B * F32.one ∧ 2 ^ 24 ≤ B ∧ B ≤ 2 * t := by
  have hone : F32.one = 2 ^ 149 := rfl
  have htpos : 0 < t := lt_trans (Nat.pow_pos (by norm_num)) ht
  have hb : 24 < bitLen t := lt_bitLen_of_le t 24 (le_of_lt ht)
  obtain ⟨v, hv⟩ : ∃ v, bitLen t = 25 + v := ⟨bitLen t - 25, by omega⟩
  have hs : bitLen t + 149 - 24 = 149 + (1 + v) := by omega
  have hlo : 2 ^ (24 + v) ≤ t := by
    have := two_pow_bitLen_le t htpos
    rw [hv, show 25 + v - 1 = 24 + v by omega] at this
    exact this
  rw [ofNat_eq, hone]
  simp only [F32.units]
  rw [bitLen_mul_two_pow t 149 htpos, hs]
  obtain ⟨M, hM⟩ : ∃ M, M = roundNearestEven (t * 2 ^ 149) (2 ^ (149 + (1 + v))) := ⟨_, rfl⟩
  rw [← hM]
  have hpos : 0 < 2 ^ (149 + (1 + v)) := Nat.pow_pos (by norm_num)
  have hq : 2 ^ 23 ≤ t * 2 ^ 149 / 2 ^ (149 + (1 + v)) := by
    rw [Nat.le_div_iff_mul_le hpos]
    calc 2 ^ 23 * 2 ^ (149 + (1 + v)) = 2 ^ (24 + v) * 2 ^ 149 := by
          rw [← pow_add, ← pow_add]; congr 1; omega
      _ ≤ t * 2 ^ 149 := Nat.mul_le_mul_right _ hlo
  have hMlo : 2 ^ 23 ≤ M := by
    rw [hM]; exact le_trans hq (div_le_roundNearestEven _ _)
  have hMhi : M * 2 ^ (149 + (1 + v)) ≤ 2 * t * 2 ^ 149 := by
    have h1 : M ≤ t * 2 ^ 149 / 2 ^ (149 + (1 + v)) + 1 := by
      rw [hM]
      rcases roundNearestEven_cases (t * 2 ^ 149) (2 ^ (149 + (1 + v))) with h | ⟨h, _⟩
      · omega
      · omega
    have h2 : t * 2 ^ 149 / 2 ^ (149 + (1 + v)) * 2 ^ (149 + (1 + v)) ≤ t * 2 ^ 149 :=
      Nat.div_mul_le_self _ _
    have h3 : 2 ^ (149 + (1 + v)) ≤ t * 2 ^ 149 := by
      calc 2 ^ (149 + (1 + v)) ≤ 2 ^ 23 * 2 ^ (149 + (1 + v)) :=
            Nat.le_mul_of_pos_left _ (Nat.pow_pos (by norm_num))
        _ ≤ t * 2 ^ 149 / 2 ^ (149 + (1 + v)) * 2 ^ (149 + (1 + v)) :=
            Nat.mul_le_mul_right _ hq
        _ ≤ t * 2 ^ 149 := h2
    calc M * 2 ^ (149 + (1 + v))
        ≤ (t * 2 ^ 149 / 2 ^ (149 + (1 + v)) + 1) * 2 ^ (149 + (1 + v)) :=
          Nat.mul_le_mul_right _ h1
      _ = t * 2 ^ 149 / 2 ^ (149 + (1 + v)) * 2 ^ (149 + (1 + v)) + 2 ^ (149 + (1 + v)) := by
          ring
      _ ≤ t * 2 ^ 149 + t * 2 ^ 149 := Nat.add_le_add h2 h3
      _ = 2 * t * 2 ^ 149 := by ring
  have hsplit : M * 2 ^ (149 + (1 + v)) = M * 2 ^ (1 + v) * 2 ^ 149 := by
    rw [pow_add 2 149 (1 + v)]; ring
  refine ⟨M * 2 ^ (1 + v), hsplit, ?_, ?_⟩
  · calc 2 ^ 24 = 2 ^ 23 * 2 ^ 1 := by norm_num
      _ ≤ M * 2 ^ (1 + v) :=
          Nat.mul_le_mul hMlo (Nat.pow_le_pow_right (by norm_num) (by omega))
  · rw [hsplit] at hMhi
    exact Nat.le_of_mul_le_mul_right hMhi (Nat.pow_pos (by norm_num))

/-- The single-precision quotient of two whole numbers, unfolded. -/
theorem div_of_whole (a b : F32) (n B : Nat) (ha : a.units = n * F32.one)
    (hb : b.units = B * F32.one) :
    F32.div a b =
      ⟨roundNearestEven (n * 2 ^ 149) (B * 2 ^ (bitLen (n * 2 ^ 149 / B) - 24)),
        bitLen (n * 2 ^ 149 / B) - 24⟩ := by
  have hone : (2 : Nat) ^ 149 = F32.one := rfl
  have hpos : 0 < F32.one * F32.one := Nat.mul_pos (Nat.pow_pos (by norm_num))
    (Nat.pow_pos (by norm_num))
  unfold F32.div F32.round
  simp only []
  rw [ha, hb, hone]
  have e1 : n * F32.one * F32.one * F32.one = F32.one * F32.one * (n * F32.one) := by ring
  have e2 : F32.one * (B * F32.one) = F32.one * F32.one * B := by ring
  rw [e1, e2, Nat.mul_div_mul_left _ _ hpos, Nat.mul_assoc (F32.one * F32.one) B,
    roundNearestEven_scale _ _ _ hpos]

/-- The dispatch-grid expression on a quotient of whole numbers. -/
theorem dispatchGroups_of_whole (n t B : Nat) (hn1 : 1 ≤ n) (hn : n ≤ 2 ^ 24)
    (hB1 : 1 ≤ B) (hB : B ≤ 2 ^ 126) (hb : (F32.ofNat t).units = B * F32.one) :
    dispatchGroups n t = (n + B - 1) / B := by
  have hone : F32.one = 2 ^ 149 := rfl
  unfold dispatchGroups F32.toUInt32 F32.ceil
  rw [div_of_whole _ _ n B (ofNat_units_exact n hn) hb]
  simp only [F32.units]
  rw [hone, round_div_ceil n B hn1 hn hB1 hB, Nat.mul_div_cancel _ (Nat.pow_pos (by norm_num))]
  apply Nat.mod_eq_of_lt
  have h2 : (n + B - 1) / B ≤ n := by
    obtain ⟨_, hlo, _⟩ := ceilDiv_bounds n B hn1 hB1
    have : ((n + B - 1) / B - 1) * 1 ≤ ((n + B - 1) / B - 1) * B := Nat.mul_le_mul_left _ hB1
    omega
  have h3 : (2 : Nat) ^ 24 < 2 ^ 32 := by norm_num
  omega

/-- For an extent up to `2 ^ 24` and any `size_t` tile size, the dispatch-grid
expression is the round-up division. -/
theorem dispatchGroups_eq (n t : Nat) (hn1 : 1 ≤ n) (hn : n ≤ 2 ^ 24) (ht1 : 1 ≤ t)
    (ht : t < 2 ^ 64) : dispatchGroups n t = (n + t - 1) / t := by
  rcases Nat.lt_or_ge (2 ^ 24) t with hbig | hsmall
  · obtain ⟨B, hb, hBlo, hBhi⟩ := ofNat_units_large t hbig
    have hB126 : B ≤ 2 ^ 126 := by
      have : (2 : Nat) ^ 65 ≤ 2 ^ 126 := Nat.pow_le_pow_right (by norm_num) (by norm_num)
      have h64 : (2 : Nat) ^ 65 = 2 * 2 ^ 64 := by norm_num
      omega
    rw [dispatchGroups_of_whole n t B hn1 hn (by omega) hB126 hb]
    have e1 : (n + B - 1) / B = 1 := by
      apply Nat.div_eq_of_lt_le <;> omega
    have e2 : (n + t - 1) / t = 1 := by
      apply Nat.div_eq_of_lt_le <;> omega
    rw [e1, e2]
  · have hb := ofNat_units_exact t hsmall
    have hB126 : t ≤ 2 ^ 126 :=
      le_trans hsmall (Nat.pow_le_pow_right (by norm_num) (by norm_num))
    exact dispatchGroups_of_whole n t t hn1 hn ht1 hB126 hb

/-! ### The image file -/

/-- The conversion loop fills the zeroed part of the buffer with the colour
bytes of the pixels, in order, and touches nothing else. -/
theorem saveImageLoop_eq (pixels : Nat → vec4) (fuel i : Nat) (pre post : List Nat)
    (hpre : pre.length = 3 * i) :
    saveImageLoop pixels fuel i (pre ++ List.replicate (3 * fuel) 0 ++ post) =
      pre ++ rgbBytes pixels fuel i ++ post := by
  induction fuel generalizing i pre with
  | zero => simp [saveImageLoop, rgbBytes]
  | succ fuel ih =>
    have hrep : List.replicate (3 * (fuel + 1)) 0 = 0 :: 0 :: 0 :: List.replicate (3 * fuel) 0 := by
      rw [show 3 * (fuel + 1) = 3 * fuel + 1 + 1 + 1 by ring]
      rfl
    rw [saveImageLoop, hrep]
    have h0 : pre.length ≤ 3 * i + 0 := by omega
    have h1 : pre.length ≤ 3 * i + 1 := by omega
    have h2 : pre.length ≤ 3 * i + 2 := by omega
    rw [List.append_assoc pre]
    rw [List.set_append_right _ _ h0, List.set_append_right _ _ h1, List.set_append_right _ _ h2]
    have e0 : 3 * i + 0 - pre.length = 0 := by omega
    have e1 : 3 * i + 1 - pre.length = 1 := by omega
    have e2 : 3 * i + 2 - pre.length = 2 := by omega
    rw [e0, e1, e2]
    simp only [List.cons_append, List.set_cons_zero, List.set_cons_succ]
    have hnew : pre ++ pixelByte (pixels i).r :: pixelByte (pixels i).g ::
        pixelByte (pixels i).b :: (List.replicate (3 * fuel) 0 ++ post) =
        (pre ++ [pixelByte (pixels i).r, pixelByte (pixels i).g, pixelByte (pixels i).b]) ++
          List.replicate (3 * fuel) 0 ++ post := by simp
    rw [hnew, ih (i + 1) _ (by simp [hpre]; ring)]
    simp [rgbBytes]

/-- The loop run from the start on a zeroed buffer of the right size. -/
theorem saveImageLoop_zeroed (pixels : Nat → vec4) (count : Nat) :
    saveImageLoop pixels count 0 (List.replicate (3 * count) 0) = rgbBytes pixels count 0 := by
  have h := saveImageLoop_eq pixels count 0 [] [] rfl
  simp only [List.nil_append, List.append_nil] at h
  exact h

/-- What `saveImage` leaves in its byte buffer. -/
theorem imageBytes_eq (pixels : Nat → vec4) :
    imageBytes pixels = rgbBytes pixels (WIDTH * HEIGHT) 0 := by
  unfold imageBytes
  rw [Nat.mul_assoc 3 WIDTH HEIGHT]
  exact saveImageLoop_zeroed pixels (WIDTH * HEIGHT)

/-- Three bytes for each pixel. -/
theorem rgbBytes_length (pixels : Nat → vec4) (count i : Nat) :
    (rgbBytes pixels count i).length = 3 * count := by
  induction count generalizing i with
  | zero => rfl
  | succ count ih => simp [rgbBytes, ih]; ring

/-- The three bytes of the `k`-th pixel of the run. -/
theorem rgbBytes_getElem_opt (pixels : Nat → vec4) (count i k : Nat) (hk : k < count) :
    (rgbBytes pixels count i)[3 * k]? = some (pixelByte (pixels (i + k)).r) ∧
    (rgbBytes pixels count i)[3 * k + 1]? = some (pixelByte (pixels (i + k)).g) ∧
    (rgbBytes pixels count i)[3 * k + 2]? = some (pixelByte (pixels (i + k)).b) := by
  induction count generalizing i k with
  | zero => omega
  | succ count ih =>
    cases k with
    | zero => simp [rgbBytes]
    | succ k =>
      have := ih (i + 1) k (by omega)
      have e0 : 3 * (k + 1) = 3 * k + 3 := by ring
      have e1 : 3 * (k + 1) + 1 = 3 * k + 1 + 3 := by ring
      have e2 : 3 * (k + 1) + 2 = 3 * k + 2 + 3 := by ring
      have ei : i + (k + 1) = i + 1 + k := by ring
      have hskip : ∀ (a b c : Nat) (l : List Nat) (n : Nat),
          (a :: b :: c :: l)[n + 3]? = l[n]? := by
        intro a b c l n
        rw [show n + 3 = n + 1 + 1 + 1 by ring, List.getElem?_cons_succ,
          List.getElem?_cons_succ, List.getElem?_cons_succ]
      rw [e1, e2, e0, ei]
      simp only [rgbBytes, List.cons_append, List.nil_append, hskip]
      exact this

/-- The body depends on the colour bytes only. -/
theorem rgbBytes_congr (p q : Nat → vec4) (count i : Nat)
    (h : ∀ k, k < count → pixelByte (p (i + k)).r = pixelByte (q (i + k)).r ∧
      pixelByte (p (i + k)).g = pixelByte (q (i + k)).g ∧
      pixelByte (p (i + k)).b = pixelByte (q (i + k)).b) :
    rgbBytes p count i = rgbBytes q count i := by
  induction count generalizing i with
  | zero => rfl
  | succ count ih =>
    have h0 := h 0 (Nat.succ_pos count)
    rw [Nat.add_zero] at h0
    have hrest := ih (i + 1) (fun k hk => by
      have := h (k + 1) (Nat.succ_lt_succ hk)
      rw [show i + (k + 1) = i + 1 + k by ring] at this
      exact this)
    simp only [rgbBytes, h0.1, h0.2.1, h0.2.2, hrest]

/-- A body of equal triples. -/
theorem rgbBytes_const (p : Nat → vec4) (count i x y z : Nat)
    (h : ∀ k, k < count → pixelByte (p (i + k)).r = x ∧ pixelByte (p (i + k)).g = y ∧
      pixelByte (p (i + k)).b = z) :
    rgbBytes p count i = (List.replicate count [x, y, z]).flatten := by
  induction count generalizing i with
  | zero => rfl
  | succ count ih =>
    have h0 := h 0 (Nat.succ_pos count)
    rw [Nat.add_zero] at h0
    have hrest := ih (i + 1) (fun k hk => by
      have := h (k + 1) (Nat.succ_lt_succ hk)
      rw [show i + (k + 1) = i + 1 + k by ring] at this
      exact this)
    simp only [rgbBytes, h0.1, h0.2.1, h0.2.2, hrest, List.replicate_succ, List.flatten_cons]

/-- The conversion reads the value of the float, not its representation. -/
theorem pixelByte_congr (a b : F32) (h : a.units = b.units) : pixelByte a = pixelByte b := by
  unfold pixelByte
  rw [mul_255, mul_255, h]

set_option maxRecDepth 100000 in
/-- The component `1.0` becomes the byte 255. -/
theorem pixelByte_one : pixelByte ⟨1, 149⟩ = 255 := by decide

set_option maxRecDepth 100000 in
/-- The component `0.0` becomes the byte 0. -/
theorem pixelByte_zero : pixelByte ⟨0, 0⟩ = 0 := by decide

/-- The header is the fifteen ASCII bytes of `P6`, `256 256`, `255`, each
followed by a line feed. -/
theorem ppmHeader_eq :
    ppmHeader = [80, 54, 10, 50, 53, 54, 32, 50, 53, 54, 10, 50, 53, 53, 10] := by decide

/-! ### The claims about the arithmetic and the file -/

set_option maxRecDepth 100000 in
/-- The float nearest to `128 / 255`. -/
theorem round_128_255 : F32.round 128 255 = ⟨8421505, 125⟩ := by decide

/-- C3. The conversion `static_cast<char>(255 * c)` of `saveImage` yields the
integer part of `255 * c` for every float `c` in `[0, 1]`: every `c` with
`128/255 ≤ c < 129/255` gives 128 (truncation, never rounding up), `1.0`
gives 255, `0.0` gives 0, and the float nearest to `128/255` gives 128. -/
theorem pixelByte_is_floor (c : F32) (hm : c.m < 2 ^ 24) (hc : c.units ≤ F32.one) :
    pixelByte c = 255 * c.units / F32.one ∧
    (128 * F32.one ≤ 255 * c.units → 255 * c.units < 129 * F32.one → pixelByte c = 128) ∧
    pixelByte ⟨1, 149⟩ = 255 ∧ pixelByte ⟨0, 0⟩ = 0 ∧
    pixelByte (F32.round 128 255) = 128 := by
  have hfloor := pixelByte_eq_floor c hm hc
  refine ⟨hfloor, ?_, pixelByte_one, pixelByte_zero, ?_⟩
  · intro hlo hhi
    rw [hfloor]
    apply Nat.div_eq_of_lt_le
    · exact hlo
    · exact hhi
  · rw [round_128_255, pixelByte_eq_floor _ (by decide) (by decide)]
    decide

/-- C3, at the greatest float below `129/255`: the byte is 128. -/
theorem pixelByte_is_floor_witness : pixelByte ⟨8487297, 125⟩ = 128 :=
  (pixelByte_is_floor ⟨8487297, 125⟩ (by decide) (by decide)).2.1 (by decide) (by decide)

/-- C4. The file `saveImage` writes for a mapped buffer: the fifteen header
bytes `P6\n256 256\n255\n`, then `256 * 256 * 3` bytes, of which bytes `3i`,
`3i + 1`, `3i + 2` are the converted `r`, `g`, `b` of pixel `i` (for
components in `[0, 1]`, the integer parts of 255 times them); two buffers that
agree on `r`, `g`, `b` give the same file, whatever their alpha; and a buffer
in which every pixel has colour `(1, 0, 0)` gives 65536 repetitions of
`(255, 0, 0)`. -/
theorem ppmFile_layout (pixels : Nat → vec4) :
    ppmHeader = asciiBytes "P6\n256 256\n255\n" ∧ ppmHeader.length = 15 ∧
    ppmFile pixels = ppmHeader ++ rgbBytes pixels 65536 0 ∧
    (ppmFile pixels).length = 15 + 196608 ∧
    (∀ i, i < 65536 →
      (ppmFile pixels)[15 + 3 * i]? = some (pixelByte (pixels i).r) ∧
      (ppmFile pixels)[15 + (3 * i + 1)]? = some (pixelByte (pixels i).g) ∧
      (ppmFile pixels)[15 + (3 * i + 2)]? = some (pixelByte (pixels i).b)) ∧
    (∀ i c, i < 65536 → c.m < 2 ^ 24 → c.units ≤ F32.one →
      ((pixels i).r = c → (ppmFile pixels)[15 + 3 * i]? = some (255 * c.units / F32.one)) ∧
      ((pixels i).g = c →
        (ppmFile pixels)[15 + (3 * i + 1)]? = some (255 * c.units / F32.one)) ∧
      ((pixels i).b = c →
        (ppmFile pixels)[15 + (3 * i + 2)]? = some (255 * c.units / F32.one))) ∧
    (∀ q : Nat → vec4,
      (∀ i, i < 65536 →
        (q i).r = (pixels i).r ∧ (q i).g = (pixels i).g ∧ (q i).b = (pixels i).b) →
      ppmFile q = ppmFile pixels) ∧
    ((∀ i, i < 65536 →
        (pixels i).r.units = F32.one ∧ (pixels i).g.units = 0 ∧ (pixels i).b.units = 0) →
      ppmFile pixels = ppmHeader ++ (List.replicate 65536 [255, 0, 0]).flatten) ∧
    (∀ (env : Env) (s : AOBench), env.vkWaitForFences = true → env.vkMapMemory = some pixels →
      (saveImage env s).thrown = none ∧
        (saveImage env s).state.aoPpm = some (ppmFile pixels)) := by
  have hcount : WIDTH * HEIGHT = 65536 := by decide
  have hfile : ppmFile pixels = ppmHeader ++ rgbBytes pixels 65536 0 := by
    unfold ppmFile
    rw [imageBytes_eq, hcount]
  have hlen : ppmHeader.length = 15 := by decide
  have hidx : ∀ i, i < 65536 →
      (ppmFile pixels)[15 + 3 * i]? = some (pixelByte (pixels i).r) ∧
      (ppmFile pixels)[15 + (3 * i + 1)]? = some (pixelByte (pixels i).g) ∧
      (ppmFile pixels)[15 + (3 * i + 2)]? = some (pixelByte (pixels i).b) := by
    intro i hi
    have h := rgbBytes_getElem_opt pixels 65536 0 i hi
    rw [Nat.zero_add] at h
    rw [hfile]
    rw [List.getElem?_append_right (by omega), List.getElem?_append_right (by omega),
      List.getElem?_append_right (by omega), hlen]
    simp only [Nat.add_sub_cancel_left]
    exact h
  refine ⟨by decide, hlen, hfile, ?_, hidx, ?_, ?_, ?_, ?_⟩
  · rw [hfile, List.length_append, hlen, rgbBytes_length]
  · intro i c hi hm hc
    have h := hidx i hi
    have hfl := pixelByte_eq_floor c hm hc
    refine ⟨fun e => ?_, fun e => ?_, fun e => ?_⟩
    · rw [h.1, e, hfl]
    · rw [h.2.1, e, hfl]
    · rw [h.2.2, e, hfl]
  · intro q hq
    have hfq : ppmFile q = ppmHeader ++ rgbBytes q 65536 0 := by
      unfold ppmFile
      rw [imageBytes_eq, hcount]
    have hb : rgbBytes q 65536 0 = rgbBytes pixels 65536 0 := by
      apply rgbBytes_congr
      intro k hk
      have := hq (0 + k) (by omega)
      rw [this.1, this.2.1, this.2.2]
      exact ⟨rfl, rfl, rfl⟩
    rw [hfq, hfile, hb]
  · intro hall
    have hb : rgbBytes pixels 65536 0 = (List.replicate 65536 [255, 0, 0]).flatten := by
      apply rgbBytes_const
      intro k hk
      have := hall (0 + k) (by omega)
      refine ⟨?_, ?_, ?_⟩
      · rw [pixelByte_congr _ ⟨1, 149⟩ (by rw [this.1]; rfl)]
        exact pixelByte_one
      · rw [pixelByte_congr _ ⟨0, 0⟩ (by rw [this.2.1]; rfl)]
        exact pixelByte_zero
      · rw [pixelByte_congr _ ⟨0, 0⟩ (by rw [this.2.2]; rfl)]
        exact pixelByte_zero
    rw [hfile, hb]
  · intro env s hw hmap
    simp [saveImage, hw, hmap]

/-- C4, at the buffer in which every pixel is `(1, 0, 0, 1)`. -/
theorem ppmFile_layout_witness :
    ppmFile (fun _ => ⟨⟨1, 149⟩, ⟨0, 0⟩, ⟨0, 0⟩, ⟨1, 149⟩⟩) =
      ppmHeader ++ (List.replicate 65536 [255, 0, 0]).flatten :=
  (ppmFile_layout (fun _ => ⟨⟨1, 149⟩, ⟨0, 0⟩, ⟨0, 0⟩, ⟨1, 149⟩⟩)).2.2.2.2.2.2.2.1
    (fun _ _ => ⟨by decide, by decide, by decide⟩)

set_option maxRecDepth 100000 in
/-- C5, as claimed, fails: for the extent `2 ^ 24 + 1` and tile size 1 the
expression yields `2 ^ 24`, one group short of the extent. -/
theorem dispatchGroups_round_up_counterexample :
    dispatchGroups 16777217 1 = 16777216 ∧ dispatchGroups 16777217 1 * 1 < 16777217 ∧
      dispatchGroups 16777217 1 ≠ (16777217 + 1 - 1) / 1 := by
  decide

/-- C5, amended. For every extent `1 ≤ n ≤ 2 ^ 24` and every `size_t` tile
size `t ≥ 1` the expression of `createCommandBuffer` is the round-up division
`ceil(n / t)`, so `g * t ≥ n` and `(g - 1) * t < n`; for `WIDTH = HEIGHT = 256`
and tile 16 it is 16 and the recorded dispatch is `(16, 16, 1)`; for `n = 250`,
`t = 16` it is 16. -/
theorem dispatchGroups_round_up (n t : Nat) (hn1 : 1 ≤ n) (hn : n ≤ 2 ^ 24) (ht1 : 1 ≤ t)
    (ht : t < 2 ^ 64) :
    dispatchGroups n t = (n + t - 1) / t ∧ n ≤ dispatchGroups n t * t ∧
    (dispatchGroups n t - 1) * t < n ∧
    dispatchGroups WIDTH WORKGROUP_SIZE = 16 ∧ dispatchGroups HEIGHT WORKGROUP_SIZE = 16 ∧
    dispatchGroups 250 16 = 16 ∧
    (∀ (env : Env) (s : AOBench), (createCommandBuffer env s).thrown = none →
      Call.vkCmdDispatch 16 16 1 ∈ (createCommandBuffer env s).state.trace) := by
  have heq := dispatchGroups_eq n t hn1 hn ht1 ht
  obtain ⟨_, hlo, hhi⟩ := ceilDiv_bounds n t hn1 ht1
  have h256 : dispatchGroups 256 16 = 16 :=
    dispatchGroups_eq 256 16 (by norm_num) (by norm_num) (by norm_num) (by norm_num)
  have h250 : dispatchGroups 250 16 = 16 :=
    dispatchGroups_eq 250 16 (by norm_num) (by norm_num) (by norm_num) (by norm_num)
  have hW : dispatchGroups WIDTH WORKGROUP_SIZE = 16 := h256
  have hH : dispatchGroups HEIGHT WORKGROUP_SIZE = 16 := h256
  refine ⟨heq, ?_, ?_, hW, hH, h250, ?_⟩
  · rw [heq]; exact hhi
  · rw [heq]; exact hlo
  · intro env s
    unfold createCommandBuffer
    rw [hW, hH]
    simp only []
    repeat' split
    all_goals simp_all [AOBench.call]

/-- C5 amended, at `n = 250`, `t = 16`: sixteen groups, covering 256 ≥ 250. -/
theorem dispatchGroups_round_up_witness :
    dispatchGroups 250 16 = (250 + 16 - 1) / 16 ∧ 250 ≤ dispatchGroups 250 16 * 16 :=
  have h := dispatchGroups_round_up 250 16 (by decide) (by decide) (by decide) (by decide)
  ⟨h.1, h.2.1⟩

end VkAoBench
